import Mathlib

/-!
Shallow embedding of the django-stockman stock ledger and reservation engine.

Data model (`src/models/`): `Quant` is a cached balance at a coordinate
(product, position, target date, batch), `Move` is an immutable ledger entry,
`Hold` is a reservation with a PENDING/CONFIRMED/FULFILLED/RELEASED lifecycle.
Operations are translated from the `Stock` service facade (`src/service.py`).

Quantities are embedded as `Int` (the source uses 3-decimal-place decimals;
the claims under study only involve ordered-field arithmetic that is identical
over `Int`). Timestamps (`now`, `expires_at`, `created_at`) are `Int` points on
one axis; calendar dates (`target_date`, `created_at.date()`) are `Int` points
on a separate day axis, matching the source's separation of DateTimeField and
DateField.
-/

set_option autoImplicit false

namespace Stockman

/-- Hold lifecycle status (`src/models/enums.py`, `HoldStatus`). -/
inductive HoldStatus
  | pending
  | confirmed
  | fulfilled
  | released
deriving DecidableEq, Repr

/-- Availability policy of a product (`availability_policy` attribute,
default `planned_ok` per `PRODUCT_DEFAULTS` in `src/service.py`). -/
inductive Policy
  | stockOnly
  | plannedOk
  | demandOk
deriving DecidableEq, Repr

/-- The externally-resolved product token: an id plus the two attributes the
engine reads through `_get_product_attr` (`shelflife`, `availability_policy`). -/
structure Product where
  id : Nat
  shelflife : Option Nat
  policy : Policy
deriving DecidableEq, Repr

/-- `Quant` (`src/models/quant.py`): cached balance at a space-time coordinate.
`quantity` is the `_quantity` cache column; `createdDate` is
`created_at.date()` (used by the shelf-life window) and `createdAt` the
creation timestamp (FIFO ordering). -/
structure Quant where
  id : Nat
  productId : Nat
  position : Option Nat
  targetDate : Option Int
  batch : String
  quantity : Int
  createdDate : Int
  createdAt : Int
deriving DecidableEq, Repr

/-- `Move` (`src/models/move.py`): immutable ledger entry. -/
structure Move where
  id : Nat
  quantId : Nat
  delta : Int
  reason : String
deriving DecidableEq, Repr

/-- `Hold` (`src/models/hold.py`): reservation, or demand when `quantId` is
`none`. -/
structure Hold where
  id : Nat
  productId : Nat
  quantId : Option Nat
  quantity : Int
  targetDate : Int
  status : HoldStatus
  expiresAt : Option Int
  resolvedAt : Option Int
deriving DecidableEq, Repr

/-- Database state: the three tables plus the clock (`timezone.now()` /
`date.today()`) and the autoincrement primary-key counters. -/
structure State where
  quants : List Quant
  moves : List Move
  holds : List Hold
  now : Int
  nowDate : Int
  nextQuantId : Nat
  nextMoveId : Nat
  nextHoldId : Nat
deriving DecidableEq, Repr

/-- Empty database. -/
def State.init : State := ⟨[], [], [], 0, 0, 1, 1, 1⟩

/-- `Hold.is_active` (`src/models/hold.py`): status PENDING or CONFIRMED, and
either no expiry or `now <= expires_at`.  The same status/expiry filter is used
by every availability queryset (`expires_at__isnull=True | expires_at__gte=now`). -/
def Hold.isActiveAt (h : Hold) (now : Int) : Bool :=
  (h.status == HoldStatus.pending || h.status == HoldStatus.confirmed) &&
    match h.expiresAt with
    | none => true
    | some e => decide (now ≤ e)

/-- Sum of `f` over a list — the `aggregate(Sum(...))` idiom with
`Coalesce(..., 0)`. -/
def sumBy {α : Type} (l : List α) (f : α → Int) : Int := (l.map f).sum

/-- `Quant.held` (`src/models/quant.py`): sum of quantities of this Quant's
holds with status PENDING/CONFIRMED that are not expired. -/
def heldOf (holds : List Hold) (now : Int) (qid : Nat) : Int :=
  sumBy (holds.filter (fun h => h.quantId == some qid && h.isActiveAt now)) Hold.quantity

/-- `Quant.available` (`src/models/quant.py`): `_quantity - held`. -/
def quantAvailable (holds : List Hold) (now : Int) (q : Quant) : Int :=
  q.quantity - heldOf holds now q.id

/-- The shelf-life eligibility window applied to Quant querysets by
`Stock.available` / `Stock._find_quant_for_hold` (`src/service.py`, mirrored by
`filter_valid_quants` in `src/shelflife.py`). -/
def eligibleForDate (q : Quant) (shelflife : Option Nat) (target : Int) : Bool :=
  match shelflife with
  | none =>
      match q.targetDate with
      | none => true
      | some d => decide (d ≤ target)
  | some k =>
      match q.targetDate with
      | none => decide (q.createdDate ≥ target - (k : Int))
      | some d => decide (target - (k : Int) ≤ d) && decide (d ≤ target)

/-- The Quant sum of `Stock.available`: total `_quantity` over this product's
Quants inside the perishability window. -/
def rawTotal (quants : List Quant) (p : Product) (target : Int) : Int :=
  sumBy (quants.filter (fun q => q.productId == p.id && eligibleForDate q p.shelflife target))
    Quant.quantity

/-- The Hold sum of `Stock.available` / `Stock.committed`: quantities of the
product's holds at `target_date = target` with status PENDING/CONFIRMED,
excluding any whose `expires_at` is set and in the past. -/
def heldTotal (holds : List Hold) (now : Int) (pid : Nat) (target : Int) : Int :=
  sumBy (holds.filter (fun h =>
    h.productId == pid && h.targetDate == target && h.isActiveAt now)) Hold.quantity

/-- `Stock.available` (`src/service.py`): eligible quantity minus active
non-expired holds. -/
def available (s : State) (p : Product) (target : Int) : Int :=
  rawTotal s.quants p target - heldTotal s.holds s.now p.id target

/-- `Stock.committed` (`src/service.py`): sum of active non-expired holds. -/
def committed (s : State) (p : Product) (target : Int) : Int :=
  heldTotal s.holds s.now p.id target

/-- `Stock.demand` (`src/service.py`): active non-expired holds with no linked
Quant. -/
def demandTotal (s : State) (p : Product) (target : Int) : Int :=
  sumBy (s.holds.filter (fun h =>
    h.productId == p.id && h.targetDate == target && h.quantId == none &&
      h.isActiveAt s.now)) Hold.quantity

/-- `Stock.get_quant` (`src/service.py`): lookup by exact coordinate. -/
def getQuant (s : State) (p : Product) (position : Option Nat)
    (targetDate : Option Int) (batch : String) : Option Quant :=
  s.quants.find? (fun q =>
    q.productId == p.id && q.position == position &&
      q.targetDate == targetDate && q.batch == batch)

/-- `Stock._find_quant_for_hold` (`src/service.py`): first eligible Quant, in
creation (FIFO) order, whose individual live availability covers the request.
State lists are append-only, so list order is `created_at` order. -/
def findQuantForHold (s : State) (p : Product) (target : Int) (quantity : Int) :
    Option Quant :=
  (s.quants.filter (fun q => q.productId == p.id && eligibleForDate q p.shelflife target)).find?
    (fun q => decide (quantAvailable s.holds s.now q ≥ quantity))

/-- Structured domain error (`StockError` in `src/exceptions.py`): a code plus
contextual data.  Only the data fields the studied claims inspect are carried. -/
inductive StockErr
  | invalidQuantity (requested : Int)
  | insufficientQuantity (availableQty requested : Int)
  | insufficientAvailable (availableQty requested : Int)
  | invalidHold
  | invalidStatus (current : HoldStatus)
  | holdIsDemand
  | reasonRequired
  | quantNotFound
deriving DecidableEq, Repr

/-- An error surfaced to the caller: either a structured `StockError` or an
ambient Python exception (`ValueError` with a message). -/
inductive EngineErr
  | stock (e : StockErr)
  | valueError (msg : String)
deriving DecidableEq, Repr

/-- Whether an error is a structured domain error (code plus data) rather than
an ambient/generic exception. -/
def EngineErr.isStructured : EngineErr → Bool
  | .stock _ => true
  | .valueError _ => false

/-- The effect of `Move.save` on a fresh row (`src/models/move.py`): insert the
Move and atomically add its delta to the Quant's `_quantity` cache
(`F(_quantity) + delta`). -/
def State.applyMove (s : State) (qid : Nat) (delta : Int) (reason : String) : State :=
  { s with
      moves := s.moves ++ [⟨s.nextMoveId, qid, delta, reason⟩]
      quants := s.quants.map (fun q =>
        if q.id == qid then { q with quantity := q.quantity + delta } else q)
      nextMoveId := s.nextMoveId + 1 }

/-- `Move.save` at the model level (`src/models/move.py`): a Move that already
has a primary key refuses any save with a `ValueError`; an empty reason is also
refused with a `ValueError`; otherwise the row is inserted and the cache
updated. -/
def moveSave (s : State) (pk : Option Nat) (qid : Nat) (delta : Int)
    (reason : String) : Except EngineErr State :=
  match pk with
  | some _ => .error (.valueError "Movimentos sao imutaveis.")
  | none =>
      if reason == "" then .error (.valueError "Motivo e obrigatorio")
      else .ok (s.applyMove qid delta reason)

/-- `Move.delete` (`src/models/move.py`): always refused with a `ValueError`. -/
def moveDelete (_s : State) (_pk : Nat) : Except EngineErr State :=
  .error (.valueError "Movimentos sao imutaveis.")

/-- `Stock.receive` (`src/service.py`): get-or-create the Quant at the
coordinate, then append a positive Move.  Fails `INVALID_QUANTITY` when
`quantity <= 0`.  Returns the (id of the) affected Quant. -/
def receive (s : State) (p : Product) (quantity : Int) (position : Option Nat)
    (targetDate : Option Int) (batch : String) (reason : String) :
    Except StockErr (Nat × State) :=
  if quantity ≤ 0 then .error (.invalidQuantity quantity)
  else
    match s.quants.find? (fun q =>
        q.productId == p.id && q.position == position &&
          q.targetDate == targetDate && q.batch == batch) with
    | some q => .ok (q.id, s.applyMove q.id quantity reason)
    | none =>
        let q : Quant :=
          ⟨s.nextQuantId, p.id, position, targetDate, batch, 0, s.nowDate, s.now⟩
        let s' := { s with quants := s.quants ++ [q], nextQuantId := s.nextQuantId + 1 }
        .ok (q.id, s'.applyMove q.id quantity reason)

/-- `Stock.issue` (`src/service.py`): lock the Quant, re-read availability, and
append a negative Move only when `available >= quantity`. -/
def issue (s : State) (quantity : Int) (qid : Nat) (reason : String) :
    Except StockErr State :=
  if quantity ≤ 0 then .error (.invalidQuantity quantity)
  else
    match s.quants.find? (fun q => q.id == qid) with
    | none => .error .quantNotFound
    | some q =>
        if quantAvailable s.holds s.now q < quantity then
          .error (.insufficientQuantity (quantAvailable s.holds s.now q) quantity)
        else .ok (s.applyMove qid (-quantity) reason)

/-- `Stock.adjust` (`src/service.py`): lock the Quant, compute
`delta = new_quantity - _quantity`; no-op when zero, else append a Move. -/
def adjust (s : State) (qid : Nat) (newQuantity : Int) (reason : String) :
    Except StockErr State :=
  if reason == "" then .error .reasonRequired
  else
    match s.quants.find? (fun q => q.id == qid) with
    | none => .error .quantNotFound
    | some q =>
        let delta := newQuantity - q.quantity
        if delta == 0 then .ok s
        else .ok (s.applyMove qid delta ("Ajuste: " ++ reason))

/-- The aggregate-gate, FIFO-allocation and lock-and-recheck sequence of
`Stock.hold` (`src/service.py`): the aggregate availability check, then
`_find_quant_for_hold`, then `select_for_update` on the chosen Quant followed
by the authoritative re-check of its individual availability. -/
def lockedAlloc (s : State) (p : Product) (quantity : Int) (target : Int) :
    Option Nat :=
  match (if available s p target ≥ quantity then findQuantForHold s p target quantity
         else none) with
  | some q => if quantAvailable s.holds s.now q ≥ quantity then some q.id else none
  | none => none

/-- `Stock.hold` (`src/service.py`): on a positive quantity, run the
availability check plus allocation (`lockedAlloc`); create a PENDING Hold bound
to the chosen Quant, or on fall-through a demand Hold when the policy is
`demand_ok`, else fail `INSUFFICIENT_AVAILABLE` with the computed
availability. -/
def hold (s : State) (p : Product) (quantity : Int) (target : Int)
    (expiresAt : Option Int) : Except StockErr (Nat × State) :=
  if quantity ≤ 0 then .error (.invalidQuantity quantity)
  else
    match lockedAlloc s p quantity target with
    | some qid =>
        let h : Hold :=
          ⟨s.nextHoldId, p.id, some qid, quantity, target, .pending, expiresAt, none⟩
        .ok (h.id, { s with holds := s.holds ++ [h], nextHoldId := s.nextHoldId + 1 })
    | none =>
        if p.policy == .demandOk then
          let h : Hold :=
            ⟨s.nextHoldId, p.id, none, quantity, target, .pending, expiresAt, none⟩
          .ok (h.id, { s with holds := s.holds ++ [h], nextHoldId := s.nextHoldId + 1 })
        else .error (.insufficientAvailable (available s p target) quantity)

/-- `Stock.confirm` (`src/service.py`): PENDING → CONFIRMED, else
`INVALID_STATUS`; unresolvable id fails `INVALID_HOLD`. -/
def confirm (s : State) (hid : Nat) : Except StockErr (Hold × State) :=
  match s.holds.find? (fun h => h.id == hid) with
  | none => .error .invalidHold
  | some h =>
      if h.status ≠ HoldStatus.pending then .error (.invalidStatus h.status)
      else
        let h' := { h with status := HoldStatus.confirmed }
        .ok (h', { s with holds := s.holds.map (fun x => if x.id == hid then h' else x) })

/-- `Stock.release` (`src/service.py`): PENDING|CONFIRMED → RELEASED with a
resolution timestamp, else `INVALID_STATUS`. -/
def release (s : State) (hid : Nat) : Except StockErr (Hold × State) :=
  match s.holds.find? (fun h => h.id == hid) with
  | none => .error .invalidHold
  | some h =>
      if h.status == HoldStatus.pending || h.status == HoldStatus.confirmed then
        let h' := { h with status := HoldStatus.released, resolvedAt := some s.now }
        .ok (h', { s with holds := s.holds.map (fun x => if x.id == hid then h' else x) })
      else .error (.invalidStatus h.status)

/-- `Stock.fulfill` (`src/service.py`): requires CONFIRMED (else
`INVALID_STATUS`) and a linked Quant (else `HOLD_IS_DEMAND`); locks the Quant,
appends a Move with `delta = -quantity`, sets FULFILLED and the resolution
time. -/
def fulfill (s : State) (hid : Nat) : Except StockErr (Move × State) :=
  match s.holds.find? (fun h => h.id == hid) with
  | none => .error .invalidHold
  | some h =>
      if h.status ≠ HoldStatus.confirmed then .error (.invalidStatus h.status)
      else
        match h.quantId with
        | none => .error .holdIsDemand
        | some qid =>
            let m : Move := ⟨s.nextMoveId, qid, -h.quantity, "Entrega hold"⟩
            let s1 := s.applyMove qid (-h.quantity) "Entrega hold"
            let h' := { h with status := HoldStatus.fulfilled, resolvedAt := some s.now }
            .ok (m, { s1 with holds := s1.holds.map (fun x => if x.id == hid then h' else x) })

/-- Selection predicate of the expiry sweeper: PENDING/CONFIRMED with
`expires_at < now`. -/
def expiredSelect (now : Int) (h : Hold) : Bool :=
  (h.status == HoldStatus.pending || h.status == HoldStatus.confirmed) &&
    match h.expiresAt with
    | none => false
    | some e => decide (e < now)

/-- `Stock.release_expired` (`src/service.py`): every PENDING/CONFIRMED Hold
with `expires_at` in the past becomes RELEASED with a resolution timestamp;
returns the count. -/
def releaseExpired (s : State) : Nat × State :=
  ((s.holds.filter (expiredSelect s.now)).length,
    { s with holds := s.holds.map (fun h =>
        if expiredSelect s.now h then
          { h with status := HoldStatus.released, resolvedAt := some s.now }
        else h) })

/-- `Stock.plan` (`src/service.py`): `receive` with a mandatory target date. -/
def plan (s : State) (p : Product) (quantity : Int) (target : Int)
    (position : Option Nat) (reason : String) : Except StockErr (Nat × State) :=
  receive s p quantity position (some target) "" reason

/-- `Stock.replan` (`src/service.py`): find the planned Quant at
`(position=None, target_date, batch='')`, else `QUANT_NOT_FOUND`; then
`adjust`. -/
def replan (s : State) (p : Product) (quantity : Int) (target : Int)
    (reason : String) : Except StockErr State :=
  match getQuant s p none (some target) "" with
  | none => .error .quantNotFound
  | some q => adjust s q.id quantity reason

/-- `Stock.realize` (`src/service.py`): find the planned Quant (else
`QUANT_NOT_FOUND`); under lock append a reconciling Move when the actual
quantity differs; get-or-create the physical Quant at `to_position`
(`target_date=None`); append the `-actual`/`+actual` transfer pair; re-point
the planned Quant's PENDING/CONFIRMED Holds onto the physical Quant.  Returns
the physical Quant's id. -/
def realize (s : State) (p : Product) (target : Int) (actual : Int)
    (toPosition : Nat) (reason : String) : Except StockErr (Nat × State) :=
  match getQuant s p none (some target) "" with
  | none => .error .quantNotFound
  | some q =>
      let s1 :=
        if q.quantity ≠ actual then
          s.applyMove q.id (actual - q.quantity) ("Ajuste producao: " ++ reason)
        else s
      let pc : Nat × State :=
        match s1.quants.find? (fun x =>
            x.productId == p.id && x.position == some toPosition &&
              x.targetDate == none && x.batch == "") with
        | some x => (x.id, s1)
        | none =>
            let nq : Quant :=
              ⟨s1.nextQuantId, p.id, some toPosition, none, "", 0, s1.nowDate, s1.now⟩
            (nq.id, { s1 with quants := s1.quants ++ [nq], nextQuantId := s1.nextQuantId + 1 })
      let pqid := pc.1
      let s3 := pc.2.applyMove q.id (-actual) ("Transferencia: " ++ reason)
      let s4 := s3.applyMove pqid actual ("Recebido de producao: " ++ reason)
      .ok (pqid, { s4 with holds := s4.holds.map (fun h =>
        if h.quantId == some q.id &&
            (h.status == HoldStatus.pending || h.status == HoldStatus.confirmed) then
          { h with quantId := some pqid }
        else h) })

/-- `Quant.recalculate` (`src/models/quant.py`): re-sum the Quant's Moves;
when the sum disagrees with the cache, overwrite the cache and report the
discrepancy; returns (computed total, discrepancy found?, new state). -/
def sumDeltas (moves : List Move) (qid : Nat) : Int :=
  sumBy (moves.filter (fun m => m.quantId == qid)) Move.delta

/-- See `sumDeltas`; the `recalculate` audit itself. -/
def recalculate (s : State) (q : Quant) : Int × Bool × State :=
  let total := sumDeltas s.moves q.id
  if total ≠ q.quantity then
    (total, true,
      { s with quants := s.quants.map (fun x =>
          if x.id == q.id then { x with quantity := total } else x) })
  else (total, false, s)

/-- Wall-clock advance between operations: `timezone.now()` and
`date.today()` only move forward. -/
def tick (s : State) (dt : Int) (ddate : Int) : State :=
  { s with now := s.now + dt, nowDate := s.nowDate + ddate }

/-- One successful invocation of any engine operation (failed invocations
raise inside the atomic transaction and leave no state change), or the clock
moving forward between invocations. -/
inductive StepAll : State → State → Prop
  | receive {s s' : State} (p : Product) (quantity : Int) (position : Option Nat)
      (targetDate : Option Int) (batch reason : String) (qid : Nat) :
      receive s p quantity position targetDate batch reason = .ok (qid, s') →
      StepAll s s'
  | issue {s s' : State} (quantity : Int) (qid : Nat) (reason : String) :
      issue s quantity qid reason = .ok s' → StepAll s s'
  | adjust {s s' : State} (qid : Nat) (newQuantity : Int) (reason : String) :
      adjust s qid newQuantity reason = .ok s' → StepAll s s'
  | hold {s s' : State} (p : Product) (quantity : Int) (target : Int)
      (expiresAt : Option Int) (hid : Nat) :
      hold s p quantity target expiresAt = .ok (hid, s') → StepAll s s'
  | confirm {s s' : State} (hid : Nat) (h : Hold) :
      confirm s hid = .ok (h, s') → StepAll s s'
  | release {s s' : State} (hid : Nat) (h : Hold) :
      release s hid = .ok (h, s') → StepAll s s'
  | fulfill {s s' : State} (hid : Nat) (m : Move) :
      fulfill s hid = .ok (m, s') → StepAll s s'
  | releaseExpired {s : State} :
      StepAll s (releaseExpired s).2
  | plan {s s' : State} (p : Product) (quantity : Int) (target : Int)
      (position : Option Nat) (reason : String) (qid : Nat) :
      plan s p quantity target position reason = .ok (qid, s') → StepAll s s'
  | replan {s s' : State} (p : Product) (quantity : Int) (target : Int)
      (reason : String) :
      replan s p quantity target reason = .ok s' → StepAll s s'
  | realize {s s' : State} (p : Product) (target actual : Int) (toPosition : Nat)
      (reason : String) (pqid : Nat) :
      realize s p target actual toPosition reason = .ok (pqid, s') → StepAll s s'
  | tick {s : State} (dt ddate : Int) :
      0 ≤ dt → 0 ≤ ddate → StepAll s (tick s dt ddate)

/-- States reachable from the empty database through the engine's operations. -/
inductive ReachAll : State → Prop
  | init : ReachAll State.init
  | step {s s' : State} : ReachAll s → StepAll s s' → ReachAll s'

/-- The operation set of `StepAll` minus the unchecked-write operations
(`adjust`, and `replan`/`realize` which embed an unchecked adjust), and with
`fulfill` restricted to holds that are still unexpired when fulfilled. -/
inductive StepSafe : State → State → Prop
  | receive {s s' : State} (p : Product) (quantity : Int) (position : Option Nat)
      (targetDate : Option Int) (batch reason : String) (qid : Nat) :
      receive s p quantity position targetDate batch reason = .ok (qid, s') →
      StepSafe s s'
  | issue {s s' : State} (quantity : Int) (qid : Nat) (reason : String) :
      issue s quantity qid reason = .ok s' → StepSafe s s'
  | hold {s s' : State} (p : Product) (quantity : Int) (target : Int)
      (expiresAt : Option Int) (hid : Nat) :
      hold s p quantity target expiresAt = .ok (hid, s') → StepSafe s s'
  | confirm {s s' : State} (hid : Nat) (h : Hold) :
      confirm s hid = .ok (h, s') → StepSafe s s'
  | release {s s' : State} (hid : Nat) (h : Hold) :
      release s hid = .ok (h, s') → StepSafe s s'
  | fulfill {s s' : State} (hid : Nat) (m : Move) (h : Hold) :
      s.holds.find? (fun x => x.id == hid) = some h →
      h.isActiveAt s.now = true →
      fulfill s hid = .ok (m, s') → StepSafe s s'
  | releaseExpired {s : State} :
      StepSafe s (releaseExpired s).2
  | plan {s s' : State} (p : Product) (quantity : Int) (target : Int)
      (position : Option Nat) (reason : String) (qid : Nat) :
      plan s p quantity target position reason = .ok (qid, s') → StepSafe s s'
  | tick {s : State} (dt ddate : Int) :
      0 ≤ dt → 0 ≤ ddate → StepSafe s (tick s dt ddate)

/-- States reachable through the restricted operation set of `StepSafe`. -/
inductive ReachSafe : State → Prop
  | init : ReachSafe State.init
  | step {s s' : State} : ReachSafe s → StepSafe s s' → ReachSafe s'

/-- Unwrap a successful operation result, defaulting to the empty database
(used only to name concrete states of example traces). -/
def okState {α : Type} (r : Except StockErr (α × State)) : State :=
  match r with
  | .ok (_, s) => s
  | .error _ => State.init

/-- See `okState`, for operations returning a bare state. -/
def okState' (r : Except StockErr State) : State :=
  match r with
  | .ok s => s
  | .error _ => State.init

/-- A non-perishable product with the default `planned_ok` policy. -/
def exP : Product := ⟨1, none, Policy.plannedOk⟩

/-- Trace state: `receive(10, P, position 1)` on the empty database. -/
def exC1s1 : State := okState (receive State.init exP 10 (some 1) none "" "r")

/-- Trace state: then `hold(5, P, date 0)` — binds to the Quant. -/
def exC1s2 : State := okState (hold exC1s1 exP 5 0 none)

/-- Trace state: then `adjust(quant 1, 0)` — writes a `-10` Move with no hold
re-check. -/
def exC1s3 : State := okState' (adjust exC1s2 1 0 "inventario")

example : exC1s2.quants.map Quant.quantity = [10] := by decide
example : heldOf exC1s2.holds exC1s2.now 1 = 5 := by decide
example : exC1s3.quants.map Quant.quantity = [0] := by decide
example : heldOf exC1s3.holds exC1s3.now 1 = 5 := by decide

/-- Scenario trace for C4: `append(5, P, vitrine)`. -/
def exC4s1 : State := okState (receive State.init exP 5 (some 1) none "" "r")

/-- Scenario trace for C4: then a successful `hold(3, P, T)`. -/
def exC4s2 : State := okState (hold exC4s1 exP 3 0 none)

example : (hold exC4s1 exP 3 0 none).isOk = true := by decide
example : hold exC4s2 exP 5 0 none = .error (.insufficientAvailable 2 5) := rfl

/-- Scenario trace for C5: `append(100, P, vitrine)`. -/
def exC5s1 : State := okState (receive State.init exP 100 (some 1) none "" "r")

/-- Scenario trace for C5: then `hold(10, P, today)`. -/
def exC5s2 : State := okState (hold exC5s1 exP 10 0 none)

/-- Scenario trace for C5: then `confirm`. -/
def exC5s3 : State := okState (confirm exC5s2 1)

/-- Scenario trace for C5: then `fulfill`. -/
def exC5s4 : State := okState (fulfill exC5s3 1)

example : available exC5s2 exP 0 = 90 := by decide
example : available exC5s3 exP 0 = 90 := by decide
example : exC5s4.quants.map Quant.quantity = [90] := by decide
example : exC5s4.holds.map Hold.status = [HoldStatus.fulfilled] := by decide

/-- A perishable product: shelf life 0 days, default policy. -/
def exPk0 : Product := ⟨2, some 0, Policy.plannedOk⟩

/-- Scenario trace for C6: `plan(7, P, date 5)` for a shelf-life-0 product. -/
def exC6s1 : State := okState (plan State.init exPk0 7 5 none "r")

example : available exC6s1 exPk0 5 = 7 := by decide
example : available exC6s1 exPk0 4 = 0 := by decide
example : available exC6s1 exPk0 6 = 0 := by decide

/-- Scenario trace for C8: `plan(50, P, friday)` (friday = day 3). -/
def exC8s1 : State := okState (plan State.init exP 50 3 none "r")

/-- Scenario trace for C8: then `hold(8, P, friday)` — binds to the planned
Quant. -/
def exC8s2 : State := okState (hold exC8s1 exP 8 3 none)

/-- Scenario trace for C8: then `realize(P, friday, actual=45,
to_position=vitrine)`. -/
def exC8s3 : State := okState (realize exC8s2 exP 3 45 1 "ok")

example : exC8s2.holds.map Hold.quantId = [some 1] := by decide
example : exC8s3.moves.map (fun m => (m.quantId, m.delta)) =
    [(1, 50), (1, -5), (1, -45), (2, 45)] := by decide
example : exC8s3.quants.map (fun q => (q.id, q.position, q.targetDate, q.quantity)) =
    [(1, none, some 3, 0), (2, some 1, none, 45)] := by decide
example : exC8s3.holds.map (fun h => (h.quantId, h.status)) =
    [(some 2, HoldStatus.pending)] := by decide

/-! ### Aggregate-sum lemmas -/

theorem sumBy_cons {α : Type} (a : α) (l : List α) (f : α → Int) :
    sumBy (a :: l) f = f a + sumBy l f := by
  simp [sumBy]

theorem sumBy_append {α : Type} (l₁ l₂ : List α) (f : α → Int) :
    sumBy (l₁ ++ l₂) f = sumBy l₁ f + sumBy l₂ f := by
  simp [sumBy]

theorem sumBy_singleton {α : Type} (a : α) (f : α → Int) : sumBy [a] f = f a := by
  simp [sumBy]

theorem sumBy_filter {α : Type} (p : α → Bool) (f : α → Int) (l : List α) :
    sumBy (l.filter p) f = sumBy l (fun a => if p a then f a else 0) := by
  induction l with
  | nil => rfl
  | cons a t ih => by_cases h : p a <;> simp [List.filter_cons, h, sumBy_cons, ih]

theorem sumBy_map {α β : Type} (l : List α) (F : α → β) (f : β → Int) :
    sumBy (l.map F) f = sumBy l (fun a => f (F a)) := by
  simp only [sumBy, List.map_map]
  rfl

theorem sumBy_congr {α : Type} (l : List α) (f g : α → Int)
    (h : ∀ a ∈ l, f a = g a) : sumBy l f = sumBy l g := by
  induction l with
  | nil => rfl
  | cons a t ih =>
      rw [sumBy_cons, sumBy_cons, h a (by simp),
        ih (fun x hx => h x (by simp [hx]))]

theorem sumBy_mono {α : Type} (l : List α) (f g : α → Int)
    (h : ∀ a ∈ l, f a ≤ g a) : sumBy l f ≤ sumBy l g := by
  induction l with
  | nil => exact le_refl 0
  | cons a t ih =>
      rw [sumBy_cons, sumBy_cons]
      exact add_le_add (h a (by simp)) (ih (fun x hx => h x (by simp [hx])))

theorem sumBy_eq_zero {α : Type} (l : List α) (f : α → Int)
    (h : ∀ a ∈ l, f a = 0) : sumBy l f = 0 := by
  induction l with
  | nil => rfl
  | cons a t ih =>
      rw [sumBy_cons, h a (by simp), ih (fun x hx => h x (by simp [hx])), add_zero]

/-! ### Keyed-list lemmas (rows identified by primary key) -/

theorem map_id_of_mem {α : Type} (l : List α) (F : α → α)
    (h : ∀ a ∈ l, F a = a) : l.map F = l := by
  induction l with
  | nil => rfl
  | cons b t ih =>
      rw [List.map_cons, h b (by simp), ih (fun a ha => h a (by simp [ha]))]

theorem eq_of_key_of_pairwise {α : Type} (key : α → Nat) (l : List α)
    (hdist : l.Pairwise (fun x y => key x ≠ key y)) :
    ∀ a ∈ l, ∀ b ∈ l, key a = key b → a = b := by
  induction l with
  | nil => intro a ha; cases ha
  | cons c t ih =>
      rw [List.pairwise_cons] at hdist
      obtain ⟨hc, ht⟩ := hdist
      intro a ha b hb hk
      rcases List.mem_cons.mp ha with rfl | ha' <;>
        rcases List.mem_cons.mp hb with rfl | hb'
      · rfl
      · exact absurd hk (hc b hb')
      · exact absurd hk.symm (hc a ha')
      · exact ih ht a ha' b hb' hk

theorem sumBy_update_by_key {α : Type} (key : α → Nat) (f : α → Int) (k : Nat)
    (a' : α) (l : List α) (a : α)
    (hdist : l.Pairwise (fun x y => key x ≠ key y))
    (hmem : a ∈ l) (hkey : key a = k) :
    sumBy (l.map (fun x => if key x == k then a' else x)) f
      = sumBy l f - f a + f a' := by
  induction l with
  | nil => cases hmem
  | cons b t ih =>
      rw [List.pairwise_cons] at hdist
      obtain ⟨hb, ht⟩ := hdist
      rw [List.map_cons, sumBy_cons, sumBy_cons]
      rcases List.mem_cons.mp hmem with rfl | hmem'
      · have htail : t.map (fun x => if key x == k then a' else x) = t := by
          apply map_id_of_mem
          intro x hx
          have hne : key x ≠ k := fun hc => hb x hx (hkey.trans hc.symm)
          simp [hne]
        rw [if_pos (by simp [hkey]), htail]
        ring
      · have hne : key b ≠ k :=
          fun hc => hb a hmem' (hc.trans hkey.symm)
        rw [if_neg (by simp [hne]), ih ht hmem']
        ring

/-! ### `heldOf` computation lemmas -/

/-- Contribution of a single Hold row to `Quant.held` of quant `qid`. -/
def holdContrib (now : Int) (qid : Nat) (h : Hold) : Int :=
  if h.quantId == some qid && h.isActiveAt now then h.quantity else 0

theorem heldOf_eq_sum (holds : List Hold) (now : Int) (qid : Nat) :
    heldOf holds now qid = sumBy holds (holdContrib now qid) := by
  rw [heldOf, sumBy_filter]; rfl

theorem heldOf_append (holds : List Hold) (h : Hold) (now : Int) (qid : Nat) :
    heldOf (holds ++ [h]) now qid = heldOf holds now qid + holdContrib now qid h := by
  rw [heldOf_eq_sum, heldOf_eq_sum, sumBy_append, sumBy_singleton]

theorem heldOf_map_congr (holds : List Hold) (now : Int) (qid : Nat)
    (F : Hold → Hold)
    (h : ∀ x ∈ holds, holdContrib now qid (F x) = holdContrib now qid x) :
    heldOf (holds.map F) now qid = heldOf holds now qid := by
  rw [heldOf_eq_sum, heldOf_eq_sum, sumBy_map]
  exact sumBy_congr _ _ _ h

theorem holdContrib_nonneg (now : Int) (qid : Nat) (h : Hold)
    (hq : 0 < h.quantity) : 0 ≤ holdContrib now qid h := by
  rw [holdContrib]
  split
  · exact le_of_lt hq
  · exact le_refl 0

theorem heldOf_nonneg (holds : List Hold) (now : Int) (qid : Nat)
    (hq : ∀ h ∈ holds, 0 < h.quantity) : 0 ≤ heldOf holds now qid := by
  rw [heldOf_eq_sum]
  calc (0 : Int) = sumBy holds (fun _ => 0) := (sumBy_eq_zero _ _ (fun _ _ => rfl)).symm
    _ ≤ _ := sumBy_mono _ _ _ (fun h hh => holdContrib_nonneg now qid h (hq h hh))

/-- Sum-of-deltas over a ledger extended by one Move. -/
theorem sumDeltas_append (moves : List Move) (m : Move) (qid : Nat) :
    sumDeltas (moves ++ [m]) qid
      = sumDeltas moves qid + (if m.quantId == qid then m.delta else 0) := by
  rw [sumDeltas, sumDeltas, List.filter_append, sumBy_append]
  by_cases h : m.quantId == qid <;> simp [h, sumBy_singleton, sumBy]

/-! ### The ledger-cache invariant (claim C2) -/

/-- Referential integrity of `Hold.quant`: every linked Hold points at an
existing Quant row. -/
def HoldsFk (holds : List Hold) (quants : List Quant) : Prop :=
  ∀ h ∈ holds, ∀ qid : Nat, h.quantId = some qid → ∃ q ∈ quants, q.id = qid

/-- Invariant: primary keys are below the autoincrement counters, Holds
reference existing Quants, and every cached balance equals the sum of its
Moves' deltas. -/
structure LedgerInv (s : State) : Prop where
  quantIdLt : ∀ q ∈ s.quants, q.id < s.nextQuantId
  moveQidLt : ∀ m ∈ s.moves, m.quantId < s.nextQuantId
  holdFk : HoldsFk s.holds s.quants
  cache : ∀ q ∈ s.quants, q.quantity = sumDeltas s.moves q.id

theorem holdsFk_of_ids (holds : List Hold) (quants quants' : List Quant)
    (hfk : HoldsFk holds quants)
    (hids : ∀ i : Nat, (∃ q ∈ quants, q.id = i) → ∃ q ∈ quants', q.id = i) :
    HoldsFk holds quants' :=
  fun h hh qid hq => hids qid (hfk h hh qid hq)

theorem applyMove_id_mem (s : State) (qid : Nat) (δ : Int) (r : String) (i : Nat)
    (hq : ∃ q ∈ s.quants, q.id = i) :
    ∃ q ∈ (s.applyMove qid δ r).quants, q.id = i := by
  obtain ⟨q, hq, rfl⟩ := hq
  simp only [State.applyMove]
  by_cases h : q.id == qid
  · exact ⟨{ q with quantity := q.quantity + δ },
      List.mem_map.mpr ⟨q, hq, by simp [h]⟩, rfl⟩
  · exact ⟨q, List.mem_map.mpr ⟨q, hq, by simp [h]⟩, rfl⟩

theorem ledgerInv_applyMove (s : State) (qid : Nat) (δ : Int) (r : String)
    (inv : LedgerInv s) (hqid : qid < s.nextQuantId) :
    LedgerInv (s.applyMove qid δ r) := by
  constructor
  · intro q hq
    simp only [State.applyMove] at hq ⊢
    obtain ⟨q0, hq0, rfl⟩ := List.mem_map.mp hq
    by_cases h : q0.id == qid <;>
      simpa [h] using inv.quantIdLt q0 hq0
  · intro m hm
    simp only [State.applyMove] at hm ⊢
    rcases List.mem_append.mp hm with hm' | hm'
    · exact inv.moveQidLt m hm'
    · rcases List.mem_singleton.mp hm' with rfl
      exact hqid
  · exact holdsFk_of_ids _ _ _ inv.holdFk (applyMove_id_mem s qid δ r)
  · intro q hq
    simp only [State.applyMove] at hq ⊢
    obtain ⟨q0, hq0, rfl⟩ := List.mem_map.mp hq
    rw [sumDeltas_append]
    have hc := inv.cache q0 hq0
    by_cases h : q0.id == qid
    · have hid : q0.id = qid := by simpa using h
      simp only [h, if_true] at hq ⊢
      simp only [hid] at hc ⊢
      simp only [show (⟨s.nextMoveId, qid, δ, r⟩ : Move).quantId = qid from rfl,
        beq_self_eq_true, if_true]
      omega
    · have hqne : qid ≠ q0.id := Ne.symm (by simpa using h)
      simpa [h, hqne] using hc

/-! ### Inversion lemmas: what a successful operation did to the state -/

theorem lockedAlloc_some {s : State} {p : Product} {qty target : Int} {qid : Nat}
    (heq : lockedAlloc s p qty target = some qid) :
    ∃ q ∈ s.quants, q.id = qid ∧ quantAvailable s.holds s.now q ≥ qty ∧
      q.productId = p.id ∧ eligibleForDate q p.shelflife target = true := by
  rw [lockedAlloc] at heq
  split at heq
  next q hfind =>
    split at heq
    next hre =>
      obtain rfl := Option.some.inj heq
      split at hfind
      · have hmem := List.mem_of_find?_eq_some hfind
        obtain ⟨hmem', hpred⟩ := List.mem_filter.mp hmem
        have := List.find?_some hfind
        exact ⟨q, hmem', rfl, by simpa using this,
          by simpa using (Bool.and_elim_left hpred),
          by simpa using (Bool.and_elim_right hpred)⟩
      · simp at hfind
    · simp at heq
  · simp at heq

theorem receive_ok {s s' : State} {p : Product} {qty : Int} {pos : Option Nat}
    {td : Option Int} {b r : String} {qid : Nat}
    (heq : receive s p qty pos td b r = .ok (qid, s')) :
    0 < qty ∧
      ((∃ q ∈ s.quants, q.id = qid ∧ s' = s.applyMove q.id qty r) ∨
        (qid = s.nextQuantId ∧
          s' = ({ s with
              quants := s.quants ++
                [(⟨s.nextQuantId, p.id, pos, td, b, 0, s.nowDate, s.now⟩ : Quant)],
              nextQuantId := s.nextQuantId + 1 }).applyMove s.nextQuantId qty r)) := by
  simp only [receive] at heq
  split at heq
  · simp at heq
  next hqty =>
    refine ⟨by omega, ?_⟩
    split at heq
    next q hfind =>
      simp only [Except.ok.injEq, Prod.mk.injEq] at heq
      obtain ⟨h1, h2⟩ := heq
      exact Or.inl ⟨q, List.mem_of_find?_eq_some hfind, h1, h2.symm⟩
    next hfind =>
      simp only [Except.ok.injEq, Prod.mk.injEq] at heq
      obtain ⟨h1, h2⟩ := heq
      exact Or.inr ⟨h1.symm, h2.symm⟩

theorem issue_ok {s s' : State} {qty : Int} {qid : Nat} {r : String}
    (heq : issue s qty qid r = .ok s') :
    0 < qty ∧ ∃ q ∈ s.quants, q.id = qid ∧
      quantAvailable s.holds s.now q ≥ qty ∧ s' = s.applyMove qid (-qty) r := by
  simp only [issue] at heq
  split at heq
  · simp at heq
  next hqty =>
    refine ⟨by omega, ?_⟩
    split at heq
    · simp at heq
    next q hfind =>
      split at heq
      · simp at heq
      next hav =>
        have hqid : q.id = qid := by simpa using List.find?_some hfind
        exact ⟨q, List.mem_of_find?_eq_some hfind, hqid, by omega,
          (Except.ok.inj heq).symm⟩

theorem adjust_ok {s s' : State} {qid : Nat} {nq : Int} {r : String}
    (heq : adjust s qid nq r = .ok s') :
    s' = s ∨ ∃ q ∈ s.quants, q.id = qid ∧
      s' = s.applyMove qid (nq - q.quantity) ("Ajuste: " ++ r) := by
  simp only [adjust] at heq
  split at heq
  · simp at heq
  split at heq
  · simp at heq
  next q hfind =>
    split at heq
    · exact Or.inl (Except.ok.inj heq).symm
    · exact Or.inr ⟨q, List.mem_of_find?_eq_some hfind,
        by simpa using List.find?_some hfind, (Except.ok.inj heq).symm⟩

theorem hold_ok {s s' : State} {p : Product} {qty target : Int}
    {e : Option Int} {hid : Nat}
    (heq : hold s p qty target e = .ok (hid, s')) :
    0 < qty ∧ hid = s.nextHoldId ∧
      ((p.policy = .demandOk ∧ lockedAlloc s p qty target = none ∧
          s' = { s with
            holds := s.holds ++ [⟨s.nextHoldId, p.id, none, qty, target, .pending, e, none⟩],
            nextHoldId := s.nextHoldId + 1 }) ∨
        (∃ qid, lockedAlloc s p qty target = some qid ∧
          s' = { s with
            holds := s.holds ++ [⟨s.nextHoldId, p.id, some qid, qty, target, .pending, e, none⟩],
            nextHoldId := s.nextHoldId + 1 })) := by
  simp only [hold] at heq
  split at heq
  · simp at heq
  next hqty =>
    refine ⟨by omega, ?_⟩
    split at heq
    next qid halloc =>
      simp only [Except.ok.injEq, Prod.mk.injEq] at heq
      obtain ⟨h1, h2⟩ := heq
      exact ⟨h1.symm, Or.inr ⟨qid, halloc, h2.symm⟩⟩
    next halloc =>
      split at heq
      next hpol =>
        simp only [Except.ok.injEq, Prod.mk.injEq] at heq
        obtain ⟨h1, h2⟩ := heq
        exact ⟨h1.symm, Or.inl ⟨by simpa using hpol, halloc, h2.symm⟩⟩
      · simp at heq

theorem confirm_ok {s s' : State} {hid : Nat} {h : Hold}
    (heq : confirm s hid = .ok (h, s')) :
    ∃ h0 ∈ s.holds, s.holds.find? (fun x => x.id == hid) = some h0 ∧
      h0.status = .pending ∧ h = { h0 with status := .confirmed } ∧
      s' = { s with holds := s.holds.map (fun x =>
        if x.id == hid then { h0 with status := HoldStatus.confirmed } else x) } := by
  simp only [confirm] at heq
  split at heq
  · simp at heq
  next h0 hfind =>
    split at heq
    · simp at heq
    next hstat =>
      simp only [Except.ok.injEq, Prod.mk.injEq] at heq
      obtain ⟨h1, h2⟩ := heq
      exact ⟨h0, List.mem_of_find?_eq_some hfind, hfind,
        by simpa using hstat, h1.symm, h2.symm⟩

theorem release_ok {s s' : State} {hid : Nat} {h : Hold}
    (heq : release s hid = .ok (h, s')) :
    ∃ h0 ∈ s.holds, s.holds.find? (fun x => x.id == hid) = some h0 ∧
      (h0.status = .pending ∨ h0.status = .confirmed) ∧
      h = { h0 with status := .released, resolvedAt := some s.now } ∧
      s' = { s with holds := s.holds.map (fun x =>
        if x.id == hid then
          { h0 with status := HoldStatus.released, resolvedAt := some s.now }
        else x) } := by
  simp only [release] at heq
  split at heq
  · simp at heq
  next h0 hfind =>
    split at heq
    next hstat =>
      simp only [Except.ok.injEq, Prod.mk.injEq] at heq
      obtain ⟨h1, h2⟩ := heq
      refine ⟨h0, List.mem_of_find?_eq_some hfind, hfind, ?_, h1.symm, h2.symm⟩
      rcases Bool.or_eq_true_iff.mp hstat with hs | hs
      · exact Or.inl (by simpa using hs)
      · exact Or.inr (by simpa using hs)
    · simp at heq

theorem fulfill_ok {s s' : State} {hid : Nat} {m : Move}
    (heq : fulfill s hid = .ok (m, s')) :
    ∃ h0 ∈ s.holds, s.holds.find? (fun x => x.id == hid) = some h0 ∧
      h0.status = .confirmed ∧ ∃ qid, h0.quantId = some qid ∧
      m = ⟨s.nextMoveId, qid, -h0.quantity, "Entrega hold"⟩ ∧
      s' = { s.applyMove qid (-h0.quantity) "Entrega hold" with
        holds := s.holds.map (fun x =>
          if x.id == hid then
            { h0 with status := HoldStatus.fulfilled, resolvedAt := some s.now }
          else x) } := by
  simp only [fulfill] at heq
  split at heq
  · simp at heq
  next h0 hfind =>
    split at heq
    · simp at heq
    next hstat =>
      split at heq
      · simp at heq
      next qid hq =>
        simp only [Except.ok.injEq, Prod.mk.injEq] at heq
        obtain ⟨h1, h2⟩ := heq
        exact ⟨h0, List.mem_of_find?_eq_some hfind, hfind, by simpa using hstat,
          qid, hq, h1.symm, h2.symm⟩

theorem ledgerInv_newQuant (s : State) (q : Quant) (inv : LedgerInv s)
    (hid : q.id = s.nextQuantId) (hq0 : q.quantity = 0) :
    LedgerInv { s with quants := s.quants ++ [q], nextQuantId := s.nextQuantId + 1 } := by
  constructor
  · intro x hx
    rcases List.mem_append.mp hx with hx' | hx'
    · exact Nat.lt_succ_of_lt (inv.quantIdLt x hx')
    · rcases List.mem_singleton.mp hx' with rfl
      simp [hid]
  · intro m hm
    exact Nat.lt_succ_of_lt (inv.moveQidLt m hm)
  · exact holdsFk_of_ids _ _ _ inv.holdFk
      (fun i ⟨x, hx, hxi⟩ => ⟨x, List.mem_append.mpr (Or.inl hx), hxi⟩)
  · intro x hx
    rcases List.mem_append.mp hx with hx' | hx'
    · exact inv.cache x hx'
    · rcases List.mem_singleton.mp hx' with rfl
      rw [hq0, sumDeltas]
      refine (sumBy_eq_zero _ _ ?_).symm
      intro m hm
      rcases List.mem_filter.mp hm with ⟨hm', hpred⟩
      have : m.quantId = x.id := by simpa using hpred
      exact absurd (this ▸ inv.moveQidLt m hm') (by rw [hid]; exact lt_irrefl _)

theorem ledgerInv_newHold (s : State) (h : Hold) (n : Nat) (inv : LedgerInv s)
    (hfk : ∀ qid : Nat, h.quantId = some qid → ∃ q ∈ s.quants, q.id = qid) :
    LedgerInv { s with holds := s.holds ++ [h], nextHoldId := n } := by
  refine ⟨inv.quantIdLt, inv.moveQidLt, ?_, inv.cache⟩
  intro x hx qid hq
  rcases List.mem_append.mp hx with hx' | hx'
  · exact inv.holdFk x hx' qid hq
  · rcases List.mem_singleton.mp hx' with rfl
    exact hfk qid hq

theorem ledgerInv_mapHolds (s : State) (F : Hold → Hold) (inv : LedgerInv s)
    (hF : ∀ x ∈ s.holds, ∀ qid : Nat, (F x).quantId = some qid →
      ∃ q ∈ s.quants, q.id = qid) :
    LedgerInv { s with holds := s.holds.map F } := by
  refine ⟨inv.quantIdLt, inv.moveQidLt, ?_, inv.cache⟩
  intro x hx qid hq
  obtain ⟨x0, hx0, rfl⟩ := List.mem_map.mp hx
  exact hF x0 hx0 qid hq

theorem ledgerInv_tick (s : State) (dt ddate : Int) (inv : LedgerInv s) :
    LedgerInv (tick s dt ddate) :=
  ⟨inv.quantIdLt, inv.moveQidLt, inv.holdFk, inv.cache⟩

/-- Every engine operation preserves the ledger-cache invariant. -/
theorem ledgerInv_step {s s' : State} (st : StepAll s s') (inv : LedgerInv s) :
    LedgerInv s' := by
  cases st with
  | receive p qty pos td b r qid heq =>
      obtain ⟨-, hcase⟩ := receive_ok heq
      rcases hcase with ⟨q, hq, -, rfl⟩ | ⟨-, rfl⟩
      · exact ledgerInv_applyMove _ _ _ _ inv (inv.quantIdLt q hq)
      · exact ledgerInv_applyMove _ _ _ _
          (ledgerInv_newQuant _ _ inv rfl rfl) (Nat.lt_succ_self _)
  | issue qty qid r heq =>
      obtain ⟨-, q, hq, hqid, -, rfl⟩ := issue_ok heq
      exact ledgerInv_applyMove _ _ _ _ inv (hqid ▸ inv.quantIdLt q hq)
  | adjust qid nq r heq =>
      rcases adjust_ok heq with rfl | ⟨q, hq, hqid, rfl⟩
      · exact inv
      · exact ledgerInv_applyMove _ _ _ _ inv (hqid ▸ inv.quantIdLt q hq)
  | hold p qty target e hid heq =>
      obtain ⟨-, -, hcase⟩ := hold_ok heq
      rcases hcase with ⟨-, -, rfl⟩ | ⟨qid, halloc, rfl⟩
      · exact ledgerInv_newHold _ _ _ inv (fun qid hq => by simp at hq)
      · obtain ⟨q, hq, hqid, -, -, -⟩ := lockedAlloc_some halloc
        exact ledgerInv_newHold _ _ _ inv
          (fun k hk => ⟨q, hq, by simp only [Option.some.injEq] at hk; omega⟩)
  | confirm hid h heq =>
      obtain ⟨h0, hh0, -, -, -, rfl⟩ := confirm_ok heq
      refine ledgerInv_mapHolds _ _ inv ?_
      intro x hx qid hq
      by_cases hb : x.id == hid
      · simp only [hb, if_true] at hq
        exact inv.holdFk h0 hh0 qid hq
      · simp only [hb, if_false] at hq
        exact inv.holdFk x hx qid hq
  | release hid h heq =>
      obtain ⟨h0, hh0, -, -, -, rfl⟩ := release_ok heq
      refine ledgerInv_mapHolds _ _ inv ?_
      intro x hx qid hq
      by_cases hb : x.id == hid
      · simp only [hb, if_true] at hq
        exact inv.holdFk h0 hh0 qid hq
      · simp only [hb, if_false] at hq
        exact inv.holdFk x hx qid hq
  | fulfill hid m heq =>
      obtain ⟨h0, hh0, -, -, qid, hq0, -, rfl⟩ := fulfill_ok heq
      obtain ⟨qx, hqx, hqxid⟩ := inv.holdFk h0 hh0 qid hq0
      have inv1 := ledgerInv_applyMove s qid (-h0.quantity) "Entrega hold" inv
        (hqxid ▸ inv.quantIdLt qx hqx)
      refine ledgerInv_mapHolds (s.applyMove qid (-h0.quantity) "Entrega hold") _ inv1 ?_
      intro x hx k hk
      by_cases hb : x.id == hid
      · simp only [hb, if_true] at hk
        exact applyMove_id_mem s qid (-h0.quantity) "Entrega hold" k
          (inv.holdFk h0 hh0 k hk)
      · simp only [hb, if_false] at hk
        exact applyMove_id_mem s qid (-h0.quantity) "Entrega hold" k
          (inv.holdFk x hx k hk)
  | releaseExpired =>
      refine ledgerInv_mapHolds _ _ inv ?_
      intro x hx k hk
      by_cases hb : expiredSelect s.now x
      · simp only [hb, if_true] at hk
        exact inv.holdFk x hx k hk
      · simp only [hb, if_false] at hk
        exact inv.holdFk x hx k hk
  | plan p qty target pos r qid heq =>
      simp only [plan] at heq
      obtain ⟨-, hcase⟩ := receive_ok heq
      rcases hcase with ⟨q, hq, -, rfl⟩ | ⟨-, rfl⟩
      · exact ledgerInv_applyMove _ _ _ _ inv (inv.quantIdLt q hq)
      · exact ledgerInv_applyMove _ _ _ _
          (ledgerInv_newQuant _ _ inv rfl rfl) (Nat.lt_succ_self _)
  | replan p qty target r heq =>
      simp only [replan] at heq
      split at heq
      · simp at heq
      · rcases adjust_ok heq with rfl | ⟨q, hq, hqid, rfl⟩
        · exact inv
        · exact ledgerInv_applyMove _ _ _ _ inv (hqid ▸ inv.quantIdLt q hq)
  | realize p target actual toPos r pqid heq =>
      simp only [realize] at heq
      split at heq
      · simp at heq
      next q hfind =>
        have hqmem : q ∈ s.quants := List.mem_of_find?_eq_some hfind
        -- state after the optional reconciling move
        set s1 := (if q.quantity ≠ actual then
          s.applyMove q.id (actual - q.quantity) ("Ajuste producao: " ++ r)
          else s) with hs1
        have inv1 : LedgerInv s1 := by
          rw [hs1]; split
          · exact ledgerInv_applyMove _ _ _ _ inv (inv.quantIdLt q hqmem)
          · exact inv
        have hq1 : ∃ x ∈ s1.quants, x.id = q.id := by
          rw [hs1]; split
          · exact applyMove_id_mem s _ _ _ q.id ⟨q, hqmem, rfl⟩
          · exact ⟨q, hqmem, rfl⟩
        -- get-or-create of the physical Quant: split on the coordinate lookup
        split at heq
        case _ x hx =>
          have hxmem : x ∈ s1.quants := List.mem_of_find?_eq_some hx
          have inv3 : LedgerInv (s1.applyMove q.id (-actual) ("Transferencia: " ++ r)) := by
            obtain ⟨xq, hxq, hxqi⟩ := hq1
            exact ledgerInv_applyMove _ _ _ _ inv1 (hxqi ▸ inv1.quantIdLt xq hxq)
          have hx3 : ∃ y ∈ (s1.applyMove q.id (-actual)
              ("Transferencia: " ++ r)).quants, y.id = x.id :=
            applyMove_id_mem _ _ _ _ _ ⟨x, hxmem, rfl⟩
          have inv4 : LedgerInv ((s1.applyMove q.id (-actual)
              ("Transferencia: " ++ r)).applyMove x.id actual
              ("Recebido de producao: " ++ r)) := by
            obtain ⟨y, hy, hyi⟩ := hx3
            exact ledgerInv_applyMove _ _ _ _ inv3 (hyi ▸ inv3.quantIdLt y hy)
          have hx4 : ∃ y ∈ ((s1.applyMove q.id (-actual)
              ("Transferencia: " ++ r)).applyMove x.id actual
              ("Recebido de producao: " ++ r)).quants, y.id = x.id := by
            obtain ⟨y, hy, hyi⟩ := hx3
            exact applyMove_id_mem _ _ _ _ _ ⟨y, hy, hyi⟩
          simp only [Except.ok.injEq, Prod.mk.injEq] at heq
          obtain ⟨hpq, h2⟩ := heq
          rw [← h2]
          refine ledgerInv_mapHolds _ _ inv4 ?_
          intro z hz k hk
          by_cases hb : (z.quantId == some q.id &&
              (z.status == HoldStatus.pending || z.status == HoldStatus.confirmed))
          · simp only [hb, if_true] at hk
            obtain rfl := Option.some.inj hk
            exact hx4
          · simp only [hb, if_false] at hk
            exact inv4.holdFk z hz k hk
        case _ hget =>
          have inv2 : LedgerInv { s1 with
              quants := s1.quants ++ [(⟨s1.nextQuantId, p.id, some toPos, none, "", 0,
                s1.nowDate, s1.now⟩ : Quant)],
              nextQuantId := s1.nextQuantId + 1 } :=
            ledgerInv_newQuant _ _ inv1 rfl rfl
          have hq2 : ∃ y ∈ ({ s1 with
              quants := s1.quants ++ [(⟨s1.nextQuantId, p.id, some toPos, none, "", 0,
                s1.nowDate, s1.now⟩ : Quant)],
              nextQuantId := s1.nextQuantId + 1 } : State).quants, y.id = q.id := by
            obtain ⟨y, hy, hyi⟩ := hq1
            exact ⟨y, List.mem_append.mpr (Or.inl hy), hyi⟩
          have hp2 : ∃ y ∈ ({ s1 with
              quants := s1.quants ++ [(⟨s1.nextQuantId, p.id, some toPos, none, "", 0,
                s1.nowDate, s1.now⟩ : Quant)],
              nextQuantId := s1.nextQuantId + 1 } : State).quants,
              y.id = s1.nextQuantId :=
            ⟨_, List.mem_append.mpr (Or.inr (List.mem_singleton.mpr rfl)), rfl⟩
          obtain ⟨yq, hyq, hyqi⟩ := hq2
          have inv3 := ledgerInv_applyMove _ q.id (-actual) ("Transferencia: " ++ r)
            inv2 (hyqi ▸ inv2.quantIdLt yq hyq)
          obtain ⟨yp, hyp, hypi⟩ := hp2
          have hp3 := applyMove_id_mem _ q.id (-actual) ("Transferencia: " ++ r)
            s1.nextQuantId ⟨yp, hyp, hypi⟩
          obtain ⟨zp, hzp, hzpi⟩ := hp3
          have inv4 := ledgerInv_applyMove _ s1.nextQuantId actual
            ("Recebido de producao: " ++ r) inv3
            (by have hl := inv3.quantIdLt zp hzp; omega)
          have hp4 := applyMove_id_mem _ s1.nextQuantId actual
            ("Recebido de producao: " ++ r) s1.nextQuantId ⟨zp, hzp, hzpi⟩
          simp only [Except.ok.injEq, Prod.mk.injEq] at heq
          obtain ⟨hpq, h2⟩ := heq
          rw [← h2]
          refine ledgerInv_mapHolds _ _ inv4 ?_
          intro z hz k hk
          by_cases hb : (z.quantId == some q.id &&
              (z.status == HoldStatus.pending || z.status == HoldStatus.confirmed))
          · simp only [hb, if_true] at hk
            obtain rfl := Option.some.inj hk
            exact hp4
          · simp only [hb, if_false] at hk
            exact inv4.holdFk z hz k hk
  | tick dt ddate hdt hdd =>
      exact ledgerInv_tick _ _ _ inv

end Stockman

namespace Stockman

/-! ### The no-oversell invariant (claim C1) -/

theorem isActiveAt_mono (h : Hold) (now now' : Int) (hle : now ≤ now')
    (hact : h.isActiveAt now' = true) : h.isActiveAt now = true := by
  rw [Hold.isActiveAt] at hact ⊢
  rcases Bool.and_eq_true_iff.mp hact with ⟨hs, he⟩
  refine Bool.and_eq_true_iff.mpr ⟨hs, ?_⟩
  cases hexp : h.expiresAt with
  | none => simp
  | some e =>
      rw [hexp] at he
      simp only [decide_eq_true_eq] at he ⊢
      omega

theorem holdContrib_mono_time (h : Hold) (qid : Nat) (now dt : Int)
    (hdt : 0 ≤ dt) (hq : 0 < h.quantity) :
    holdContrib (now + dt) qid h ≤ holdContrib now qid h := by
  rw [holdContrib, holdContrib]
  by_cases hc : (h.quantId == some qid && h.isActiveAt (now + dt)) = true
  · rcases Bool.and_eq_true_iff.mp hc with ⟨hq1, hact⟩
    have hact' := isActiveAt_mono h now (now + dt) (by omega) hact
    rw [if_pos hc, if_pos (Bool.and_eq_true_iff.mpr ⟨hq1, hact'⟩)]
  · rw [if_neg hc]
    split
    · exact le_of_lt hq
    · exact le_refl 0

theorem heldOf_mono_time (holds : List Hold) (now dt : Int) (qid : Nat)
    (hdt : 0 ≤ dt) (hq : ∀ h ∈ holds, 0 < h.quantity) :
    heldOf holds (now + dt) qid ≤ heldOf holds now qid := by
  rw [heldOf_eq_sum, heldOf_eq_sum]
  exact sumBy_mono _ _ _
    (fun h hh => holdContrib_mono_time h qid now dt hdt (hq h hh))

theorem heldOf_update (holds : List Hold) (now : Int) (hid : Nat) (h0 h' : Hold)
    (hdist : holds.Pairwise (fun a b => a.id ≠ b.id))
    (hmem : h0 ∈ holds) (hkey : h0.id = hid) (i : Nat) :
    heldOf (holds.map (fun x => if x.id == hid then h' else x)) now i
      = heldOf holds now i - holdContrib now i h0 + holdContrib now i h' := by
  rw [heldOf_eq_sum, heldOf_eq_sum]
  exact sumBy_update_by_key Hold.id (holdContrib now i) hid h' holds h0 hdist hmem hkey

/-- `SafeInv`: well-formedness plus the no-oversell bound on every Quant. -/
structure SafeInv (s : State) : Prop where
  quantIdLt : ∀ q ∈ s.quants, q.id < s.nextQuantId
  quantIdsDistinct : s.quants.Pairwise (fun a b => a.id ≠ b.id)
  holdIdLt : ∀ h ∈ s.holds, h.id < s.nextHoldId
  holdIdsDistinct : s.holds.Pairwise (fun a b => a.id ≠ b.id)
  holdQtyPos : ∀ h ∈ s.holds, 0 < h.quantity
  holdFk : HoldsFk s.holds s.quants
  noOversell : ∀ q ∈ s.quants, heldOf s.holds s.now q.id ≤ q.quantity

theorem heldOf_fresh (s : State) (inv : SafeInv s) (i : Nat)
    (hi : s.nextQuantId ≤ i) : heldOf s.holds s.now i = 0 := by
  rw [heldOf_eq_sum]
  refine sumBy_eq_zero _ _ ?_
  intro h hh
  rw [holdContrib]
  by_cases hc : (h.quantId == some i && h.isActiveAt s.now) = true
  · rcases Bool.and_eq_true_iff.mp hc with ⟨hq1, -⟩
    obtain ⟨q, hq, hqi⟩ := inv.holdFk h hh i (by simpa using hq1)
    exact absurd (hqi ▸ inv.quantIdLt q hq) (by omega)
  · rw [if_neg hc]

end Stockman

namespace Stockman

theorem pairwise_ids_map {α : Type} (key : α → Nat) (l : List α) (F : α → α)
    (hkey : ∀ x, key (F x) = key x)
    (hp : l.Pairwise (fun a b => key a ≠ key b)) :
    (l.map F).Pairwise (fun a b => key a ≠ key b) := by
  induction l with
  | nil => exact List.Pairwise.nil
  | cons a t ih =>
      rw [List.pairwise_cons] at hp
      obtain ⟨ha, ht⟩ := hp
      rw [List.map_cons, List.pairwise_cons]
      refine ⟨?_, ih ht⟩
      intro b hb
      obtain ⟨b0, hb0, rfl⟩ := List.mem_map.mp hb
      rw [hkey, hkey]
      exact ha b0 hb0

theorem safeInv_applyMove_aux (s : State) (qid : Nat) (δ : Int) (r : String)
    (inv : SafeInv s)
    (hno : ∀ q ∈ s.quants, q.id = qid →
      heldOf s.holds s.now qid ≤ q.quantity + δ) :
    SafeInv (s.applyMove qid δ r) := by
  refine ⟨?_, ?_, inv.holdIdLt, inv.holdIdsDistinct, inv.holdQtyPos, ?_, ?_⟩
  · intro q hq
    simp only [State.applyMove] at hq ⊢
    obtain ⟨q0, hq0, rfl⟩ := List.mem_map.mp hq
    by_cases h : q0.id == qid <;> simpa [h] using inv.quantIdLt q0 hq0
  · simp only [State.applyMove]
    refine pairwise_ids_map Quant.id _ _ ?_ inv.quantIdsDistinct
    intro x
    by_cases h : x.id == qid <;> simp [h]
  · exact holdsFk_of_ids _ _ _ inv.holdFk (applyMove_id_mem s qid δ r)
  · intro q hq
    simp only [State.applyMove] at hq ⊢
    obtain ⟨q0, hq0, rfl⟩ := List.mem_map.mp hq
    by_cases h : q0.id == qid
    · have hid : q0.id = qid := by simpa using h
      simp only [h, if_true]
      simpa [hid] using hno q0 hq0 hid
    · simpa [h] using inv.noOversell q0 hq0

theorem safeInv_applyMove_add (s : State) (qid : Nat) (δ : Int) (r : String)
    (inv : SafeInv s) (hδ : 0 ≤ δ) : SafeInv (s.applyMove qid δ r) := by
  refine safeInv_applyMove_aux s qid δ r inv ?_
  intro q hq hid
  have := inv.noOversell q hq
  rw [hid] at this
  omega

theorem safeInv_applyMove_sub (s : State) (qid : Nat) (qty : Int) (r : String)
    (inv : SafeInv s) (q : Quant) (hq : q ∈ s.quants) (hqid : q.id = qid)
    (hb : qty ≤ quantAvailable s.holds s.now q) :
    SafeInv (s.applyMove qid (-qty) r) := by
  refine safeInv_applyMove_aux s qid (-qty) r inv ?_
  intro q0 hq0 hid
  have hq0q : q0 = q :=
    eq_of_key_of_pairwise Quant.id s.quants inv.quantIdsDistinct q0 hq0 q hq
      (by rw [hid, hqid])
  subst hq0q
  rw [quantAvailable, hqid] at hb
  omega

theorem safeInv_newQuant (s : State) (q : Quant) (inv : SafeInv s)
    (hid : q.id = s.nextQuantId) (hq0 : q.quantity = 0) :
    SafeInv { s with quants := s.quants ++ [q], nextQuantId := s.nextQuantId + 1 } := by
  refine ⟨?_, ?_, inv.holdIdLt, inv.holdIdsDistinct, inv.holdQtyPos, ?_, ?_⟩
  · intro x hx
    rcases List.mem_append.mp hx with hx' | hx'
    · exact Nat.lt_succ_of_lt (inv.quantIdLt x hx')
    · rcases List.mem_singleton.mp hx' with rfl
      simp [hid]
  · rw [List.pairwise_append]
    refine ⟨inv.quantIdsDistinct, List.pairwise_singleton _ _, ?_⟩
    intro a ha b hb
    rcases List.mem_singleton.mp hb with rfl
    have := inv.quantIdLt a ha
    omega
  · exact holdsFk_of_ids _ _ _ inv.holdFk
      (fun i hi => by
        obtain ⟨x, hx, hxi⟩ := hi
        exact ⟨x, List.mem_append.mpr (Or.inl hx), hxi⟩)
  · intro x hx
    rcases List.mem_append.mp hx with hx' | hx'
    · exact inv.noOversell x hx'
    · rcases List.mem_singleton.mp hx' with rfl
      rw [heldOf_fresh s inv x.id (by omega), hq0]

theorem safeInv_newHold (s : State) (h : Hold) (inv : SafeInv s)
    (hqty : 0 < h.quantity) (hidh : h.id = s.nextHoldId)
    (hfk : ∀ k : Nat, h.quantId = some k → ∃ q ∈ s.quants, q.id = k)
    (hno : ∀ q ∈ s.quants,
      heldOf s.holds s.now q.id + holdContrib s.now q.id h ≤ q.quantity) :
    SafeInv { s with holds := s.holds ++ [h], nextHoldId := s.nextHoldId + 1 } := by
  refine ⟨inv.quantIdLt, inv.quantIdsDistinct, ?_, ?_, ?_, ?_, ?_⟩
  · intro x hx
    rcases List.mem_append.mp hx with hx' | hx'
    · exact Nat.lt_succ_of_lt (inv.holdIdLt x hx')
    · rcases List.mem_singleton.mp hx' with rfl
      simp [hidh]
  · rw [List.pairwise_append]
    refine ⟨inv.holdIdsDistinct, List.pairwise_singleton _ _, ?_⟩
    intro a ha b hb
    rcases List.mem_singleton.mp hb with rfl
    have := inv.holdIdLt a ha
    omega
  · intro x hx
    rcases List.mem_append.mp hx with hx' | hx'
    · exact inv.holdQtyPos x hx'
    · rcases List.mem_singleton.mp hx' with rfl
      exact hqty
  · intro x hx k hk
    rcases List.mem_append.mp hx with hx' | hx'
    · exact inv.holdFk x hx' k hk
    · rcases List.mem_singleton.mp hx' with rfl
      exact hfk k hk
  · intro q hq
    rw [heldOf_append]
    exact hno q hq

theorem safeInv_updateHold (s : State) (hid : Nat) (h0 h' : Hold) (inv : SafeInv s)
    (hmem : h0 ∈ s.holds) (hkey : h0.id = hid)
    (hq' : 0 < h'.quantity) (hid' : h'.id = h0.id)
    (hfk' : ∀ k : Nat, h'.quantId = some k → ∃ q ∈ s.quants, q.id = k)
    (hcontrib : ∀ i : Nat, holdContrib s.now i h' ≤ holdContrib s.now i h0) :
    SafeInv { s with holds := s.holds.map (fun x => if x.id == hid then h' else x) } := by
  have hkeyF : ∀ x : Hold, (if x.id == hid then h' else x).id = x.id := by
    intro x
    by_cases hx : x.id == hid
    · have : x.id = hid := by simpa using hx
      simp [hx, hid', hkey, this]
    · simp [hx]
  refine ⟨inv.quantIdLt, inv.quantIdsDistinct, ?_, ?_, ?_, ?_, ?_⟩
  · intro x hx
    obtain ⟨x0, hx0, rfl⟩ := List.mem_map.mp hx
    rw [hkeyF x0]
    exact inv.holdIdLt x0 hx0
  · exact pairwise_ids_map Hold.id _ _ hkeyF inv.holdIdsDistinct
  · intro x hx
    obtain ⟨x0, hx0, rfl⟩ := List.mem_map.mp hx
    by_cases hb : x0.id == hid
    · simpa [hb] using hq'
    · simpa [hb] using inv.holdQtyPos x0 hx0
  · intro x hx k hk
    obtain ⟨x0, hx0, rfl⟩ := List.mem_map.mp hx
    by_cases hb : x0.id == hid
    · simp only [hb, if_true] at hk
      exact hfk' k hk
    · simp only [hb, if_false] at hk
      exact inv.holdFk x0 hx0 k hk
  · intro q hq
    rw [heldOf_update s.holds s.now hid h0 h' inv.holdIdsDistinct hmem hkey q.id]
    have := inv.noOversell q hq
    have hc := hcontrib q.id
    omega

end Stockman

namespace Stockman

theorem holdContrib_confirm (h : Hold) (now : Int) (i : Nat)
    (hp : h.status = HoldStatus.pending) :
    holdContrib now i { h with status := HoldStatus.confirmed } = holdContrib now i h := by
  simp [holdContrib, Hold.isActiveAt, hp]

theorem holdContrib_released (h : Hold) (now : Int) (i : Nat) (t : Option Int) :
    holdContrib now i { h with status := HoldStatus.released, resolvedAt := t } = 0 := by
  simp [holdContrib, Hold.isActiveAt]

theorem holdContrib_fulfilled (h : Hold) (now : Int) (i : Nat) (t : Option Int) :
    holdContrib now i { h with status := HoldStatus.fulfilled, resolvedAt := t } = 0 := by
  simp [holdContrib, Hold.isActiveAt]

theorem holdContrib_of_expired (x : Hold) (now : Int) (i : Nat)
    (hsel : expiredSelect now x = true) : holdContrib now i x = 0 := by
  rw [expiredSelect] at hsel
  rcases Bool.and_eq_true_iff.mp hsel with ⟨-, he⟩
  rw [holdContrib, Hold.isActiveAt]
  cases hexp : x.expiresAt with
  | none => rw [hexp] at he; simp at he
  | some e =>
      rw [hexp] at he
      simp only [decide_eq_true_eq] at he
      have : ¬ (now ≤ e) := by omega
      simp [this]

theorem safeInv_step {s s' : State} (st : StepSafe s s') (inv : SafeInv s) :
    SafeInv s' := by
  cases st with
  | receive p qty pos td b r qid heq =>
      obtain ⟨hqty, hcase⟩ := receive_ok heq
      rcases hcase with ⟨q, hq, -, rfl⟩ | ⟨-, rfl⟩
      · exact safeInv_applyMove_add _ _ _ _ inv (le_of_lt hqty)
      · exact safeInv_applyMove_add _ _ _ _
          (safeInv_newQuant _ _ inv rfl rfl) (le_of_lt hqty)
  | issue qty qid r heq =>
      obtain ⟨hqty, q, hq, hqid, hav, rfl⟩ := issue_ok heq
      exact safeInv_applyMove_sub _ _ _ _ inv q hq hqid hav
  | hold p qty target e hid heq =>
      obtain ⟨hqty, -, hcase⟩ := hold_ok heq
      rcases hcase with ⟨-, -, rfl⟩ | ⟨qid, halloc, rfl⟩
      · refine safeInv_newHold _ _ inv hqty rfl (fun k hk => by simp at hk) ?_
        intro q hq
        have hc : holdContrib s.now q.id
            (⟨s.nextHoldId, p.id, none, qty, target, .pending, e, none⟩ : Hold) = 0 := by
          simp [holdContrib]
        rw [hc, add_zero]
        exact inv.noOversell q hq
      · obtain ⟨qa, hqa, hqaid, hav, -, -⟩ := lockedAlloc_some halloc
        refine safeInv_newHold _ _ inv hqty rfl
          (fun k hk => ⟨qa, hqa, by simp only [Option.some.injEq] at hk; omega⟩) ?_
        intro q0 hq0
        by_cases hii : q0.id = qid
        · have hq0qa : q0 = qa :=
            eq_of_key_of_pairwise Quant.id s.quants inv.quantIdsDistinct q0 hq0 qa hqa
              (by rw [hii, hqaid])
          subst hq0qa
          have hc : holdContrib s.now q0.id
              (⟨s.nextHoldId, p.id, some qid, qty, target, .pending, e, none⟩ : Hold) ≤ qty := by
            rw [holdContrib]
            split
            · exact le_refl qty
            · omega
          rw [quantAvailable] at hav
          omega
        · have hc : holdContrib s.now q0.id
              (⟨s.nextHoldId, p.id, some qid, qty, target, .pending, e, none⟩ : Hold) = 0 := by
            have : qid ≠ q0.id := Ne.symm hii
            simp [holdContrib, this]
          rw [hc, add_zero]
          exact inv.noOversell q0 hq0
  | confirm hid h heq =>
      obtain ⟨h0, hh0, hfind, hstat, -, rfl⟩ := confirm_ok heq
      have hkey : h0.id = hid := by simpa using List.find?_some hfind
      refine safeInv_updateHold s hid h0 _ inv hh0 hkey (inv.holdQtyPos h0 hh0) rfl
        (fun k hk => inv.holdFk h0 hh0 k hk) ?_
      intro i
      rw [holdContrib_confirm h0 s.now i hstat]
  | release hid h heq =>
      obtain ⟨h0, hh0, hfind, -, -, rfl⟩ := release_ok heq
      have hkey : h0.id = hid := by simpa using List.find?_some hfind
      refine safeInv_updateHold s hid h0 _ inv hh0 hkey (inv.holdQtyPos h0 hh0) rfl
        (fun k hk => inv.holdFk h0 hh0 k hk) ?_
      intro i
      rw [holdContrib_released]
      exact holdContrib_nonneg s.now i h0 (inv.holdQtyPos h0 hh0)
  | fulfill hid m h hfind hact heq =>
      obtain ⟨h0, hh0, hfind', hstat, qid, hqid0, -, rfl⟩ := fulfill_ok heq
      have hh0h : h0 = h := by rw [hfind'] at hfind; exact Option.some.inj hfind
      subst hh0h
      have hkey : h0.id = hid := by simpa using List.find?_some hfind'
      have hkeyF : ∀ x : Hold,
          (if x.id == hid then
            { h0 with status := HoldStatus.fulfilled, resolvedAt := some s.now }
          else x).id = x.id := by
        intro x
        by_cases hx : x.id == hid
        · have : x.id = hid := by simpa using hx
          simp [hx, hkey, this]
        · simp [hx]
      refine ⟨?_, ?_, ?_, ?_, ?_, ?_, ?_⟩
      · intro q hq
        simp only [State.applyMove] at hq ⊢
        obtain ⟨q0, hq0, rfl⟩ := List.mem_map.mp hq
        by_cases hb : q0.id == qid <;> simpa [hb] using inv.quantIdLt q0 hq0
      · simp only [State.applyMove]
        refine pairwise_ids_map Quant.id _ _ ?_ inv.quantIdsDistinct
        intro x
        by_cases hb : x.id == qid <;> simp [hb]
      · intro x hx
        obtain ⟨x0, hx0, rfl⟩ := List.mem_map.mp hx
        rw [hkeyF x0]
        exact inv.holdIdLt x0 hx0
      · exact pairwise_ids_map Hold.id _ _ hkeyF inv.holdIdsDistinct
      · intro x hx
        obtain ⟨x0, hx0, rfl⟩ := List.mem_map.mp hx
        by_cases hb : x0.id == hid
        · simpa [hb] using inv.holdQtyPos h0 hh0
        · simpa [hb] using inv.holdQtyPos x0 hx0
      · intro x hx k hk
        obtain ⟨x0, hx0, rfl⟩ := List.mem_map.mp hx
        by_cases hb : x0.id == hid
        · simp only [hb, if_true] at hk
          exact applyMove_id_mem s qid (-h0.quantity) "Entrega hold" k
            (inv.holdFk h0 hh0 k hk)
        · simp only [hb, if_false] at hk
          exact applyMove_id_mem s qid (-h0.quantity) "Entrega hold" k
            (inv.holdFk x0 hx0 k hk)
      · intro q hq
        simp only [State.applyMove] at hq ⊢
        obtain ⟨q0, hq0, rfl⟩ := List.mem_map.mp hq
        have hupd := heldOf_update s.holds s.now hid h0
          { h0 with status := HoldStatus.fulfilled, resolvedAt := some s.now }
          inv.holdIdsDistinct hh0 hkey q0.id
        rw [holdContrib_fulfilled] at hupd
        have hcon : holdContrib s.now q0.id h0 =
            if qid == q0.id then h0.quantity else 0 := by
          rw [holdContrib, hqid0, hact]
          by_cases hb : qid == q0.id <;> simp [hb]
        have hno := inv.noOversell q0 hq0
        by_cases hb : q0.id == qid
        · have hbid : q0.id = qid := by simpa using hb
          rw [if_pos hb]
          show heldOf (s.holds.map (fun x =>
              if x.id == hid then
                { h0 with status := HoldStatus.fulfilled, resolvedAt := some s.now }
              else x)) s.now q0.id ≤ q0.quantity + -h0.quantity
          rw [hupd, hcon, if_pos (by simp [hbid])]
          omega
        · have hbid : qid ≠ q0.id := fun hc => (by simpa using hb : ¬ q0.id = qid) hc.symm
          rw [if_neg hb]
          show heldOf (s.holds.map (fun x =>
              if x.id == hid then
                { h0 with status := HoldStatus.fulfilled, resolvedAt := some s.now }
              else x)) s.now q0.id ≤ q0.quantity
          rw [hupd, hcon, if_neg (by simpa using hbid)]
          omega
  | releaseExpired =>
      have hkeyF : ∀ x : Hold,
          (if expiredSelect s.now x then
            { x with status := HoldStatus.released, resolvedAt := some s.now }
          else x).id = x.id := by
        intro x
        by_cases hx : expiredSelect s.now x <;> simp [hx]
      refine ⟨inv.quantIdLt, inv.quantIdsDistinct, ?_, ?_, ?_, ?_, ?_⟩
      · intro x hx
        obtain ⟨x0, hx0, rfl⟩ := List.mem_map.mp hx
        rw [hkeyF x0]
        exact inv.holdIdLt x0 hx0
      · exact pairwise_ids_map Hold.id _ _ hkeyF inv.holdIdsDistinct
      · intro x hx
        obtain ⟨x0, hx0, rfl⟩ := List.mem_map.mp hx
        by_cases hb : expiredSelect s.now x0 <;> simpa [hb] using inv.holdQtyPos x0 hx0
      · intro x hx k hk
        obtain ⟨x0, hx0, rfl⟩ := List.mem_map.mp hx
        by_cases hb : expiredSelect s.now x0
        · simp only [hb, if_true] at hk
          exact inv.holdFk x0 hx0 k hk
        · simp only [hb, if_false] at hk
          exact inv.holdFk x0 hx0 k hk
      · intro q hq
        have hmap : heldOf ((releaseExpired s).2).holds s.now q.id
            = heldOf s.holds s.now q.id := by
          refine heldOf_map_congr s.holds s.now q.id _ ?_
          intro x hx
          by_cases hb : expiredSelect s.now x
          · rw [if_pos hb, holdContrib_released, holdContrib_of_expired x s.now q.id hb]
          · rw [if_neg hb]
        exact hmap ▸ inv.noOversell q hq
  | plan p qty target pos r qid heq =>
      simp only [plan] at heq
      obtain ⟨hqty, hcase⟩ := receive_ok heq
      rcases hcase with ⟨q, hq, -, rfl⟩ | ⟨-, rfl⟩
      · exact safeInv_applyMove_add _ _ _ _ inv (le_of_lt hqty)
      · exact safeInv_applyMove_add _ _ _ _
          (safeInv_newQuant _ _ inv rfl rfl) (le_of_lt hqty)
  | tick dt ddate hdt hdd =>
      refine ⟨inv.quantIdLt, inv.quantIdsDistinct, inv.holdIdLt, inv.holdIdsDistinct,
        inv.holdQtyPos, inv.holdFk, ?_⟩
      intro q hq
      exact le_trans
        (heldOf_mono_time s.holds s.now dt q.id hdt inv.holdQtyPos)
        (inv.noOversell q hq)

end Stockman

namespace Stockman

theorem ledgerInv_init : LedgerInv State.init := by
  refine ⟨?_, ?_, ?_, ?_⟩ <;> intro x hx <;> cases hx

theorem ledgerInv_reach {s : State} (hr : ReachAll s) : LedgerInv s := by
  induction hr with
  | init => exact ledgerInv_init
  | step _ st ih => exact ledgerInv_step st ih

theorem safeInv_init : SafeInv State.init := by
  refine ⟨?_, ?_, ?_, ?_, ?_, ?_, ?_⟩
  · intro x hx; cases hx
  · exact List.Pairwise.nil
  · intro x hx; cases hx
  · exact List.Pairwise.nil
  · intro x hx; cases hx
  · intro x hx; cases hx
  · intro x hx; cases hx

theorem safeInv_reach {s : State} (hr : ReachSafe s) : SafeInv s := by
  induction hr with
  | init => exact safeInv_init
  | step _ st ih => exact safeInv_step st ih

end Stockman

namespace Stockman

/-- C1 (claim as stated is refuted): the claim includes `adjust` among the
operations, but `adjust` writes an arbitrary new balance with no re-check of
live holds.  Concretely: `receive(10)`, `hold(5)` (bound to the Quant), then
`adjust(quant, 0)` reaches a state where the cached balance is 0 while an
active Hold of 5 exists, so `balance - held = -5 < 0`. -/
theorem C1_counterexample :
    ReachAll exC1s3 ∧
      (⟨1, 1, some 1, none, "", 0, 0, 0⟩ : Quant) ∈ exC1s3.quants ∧
      (⟨1, 1, some 1, none, "", 0, 0, 0⟩ : Quant).quantity -
        heldOf exC1s3.holds exC1s3.now
          (⟨1, 1, some 1, none, "", 0, 0, 0⟩ : Quant).id < 0 := by
  refine ⟨?_, by decide, by decide⟩
  exact ReachAll.step (ReachAll.step (ReachAll.step ReachAll.init
    (StepAll.receive exP 10 (some 1) none "" "r" 1 rfl))
    (StepAll.hold exP 5 0 none 1 rfl))
    (StepAll.adjust 1 0 "inventario" rfl)

/-- C1 (amended): for every Quant, in every state reachable by receive, issue,
hold, confirm, release, fulfill of a hold that is still unexpired,
release_expired, plan, and the passage of time — i.e. the engine's operations
excluding the unchecked-write family (`adjust`, and `replan`/`realize` which
embed an unchecked adjust) and excluding fulfill of already-expired holds —
the cached balance minus the sum of quantities of its active non-expired
PENDING/CONFIRMED Holds is >= 0. -/
theorem C1_no_oversell (s : State) (hr : ReachSafe s) (q : Quant)
    (hq : q ∈ s.quants) : 0 ≤ q.quantity - heldOf s.holds s.now q.id := by
  have inv := safeInv_reach hr
  have h := inv.noOversell q hq
  omega

/-- Witness for C1 at a concrete reachable state: after `receive(10)` and
`hold(5)` the Quant's balance is 10 and its held total 5. -/
theorem C1_no_oversell_witness :
    (⟨1, 1, some 1, none, "", 10, 0, 0⟩ : Quant) ∈ exC1s2.quants ∧
      0 ≤ (⟨1, 1, some 1, none, "", 10, 0, 0⟩ : Quant).quantity -
        heldOf exC1s2.holds exC1s2.now
          (⟨1, 1, some 1, none, "", 10, 0, 0⟩ : Quant).id := by
  have hr : ReachSafe exC1s2 :=
    ReachSafe.step (ReachSafe.step ReachSafe.init
      (StepSafe.receive exP 10 (some 1) none "" "r" 1 rfl))
      (StepSafe.hold exP 5 0 none 1 rfl)
  exact ⟨by decide, C1_no_oversell exC1s2 hr _ (by decide)⟩

/-- C2: in every reachable state, every Quant's cached balance equals the sum
of the deltas of the Moves referencing it, and `recalculate` finds no
discrepancy: it returns the cached value and leaves the state unchanged. -/
theorem C2_ledger_cache (s : State) (hr : ReachAll s) (q : Quant)
    (hq : q ∈ s.quants) :
    q.quantity = sumDeltas s.moves q.id ∧
      recalculate s q = (q.quantity, false, s) := by
  have inv := ledgerInv_reach hr
  have hc := inv.cache q hq
  refine ⟨hc, ?_⟩
  simp only [recalculate]
  rw [if_neg (fun hne => hne hc.symm), hc]

/-- Witness for C2 at a concrete reachable state: after `receive(100)`. -/
theorem C2_ledger_cache_witness :
    (⟨1, 1, some 1, none, "", 100, 0, 0⟩ : Quant) ∈ exC5s1.quants ∧
      ((⟨1, 1, some 1, none, "", 100, 0, 0⟩ : Quant).quantity
          = sumDeltas exC5s1.moves (⟨1, 1, some 1, none, "", 100, 0, 0⟩ : Quant).id ∧
        recalculate exC5s1 ⟨1, 1, some 1, none, "", 100, 0, 0⟩
          = ((⟨1, 1, some 1, none, "", 100, 0, 0⟩ : Quant).quantity, false, exC5s1)) := by
  have hr : ReachAll exC5s1 := ReachAll.step ReachAll.init
    (StepAll.receive exP 100 (some 1) none "" "r" 1 rfl)
  exact ⟨by decide,
    C2_ledger_cache exC5s1 hr ⟨1, 1, some 1, none, "", 100, 0, 0⟩ (by decide)⟩

end Stockman

namespace Stockman

/-- The state with one Hold row removed — the hypothetical "if that Hold did
not exist" comparison state of the real-time expiry property. -/
def removeHold (s : State) (h : Hold) : State := { s with holds := s.holds.erase h }

theorem sumBy_erase {α : Type} [DecidableEq α] (l : List α) (a : α) (f : α → Int)
    (ha : a ∈ l) : sumBy (l.erase a) f = sumBy l f - f a := by
  induction l with
  | nil => cases ha
  | cons b t ih =>
      rw [List.erase_cons]
      by_cases hb : b = a
      · rw [if_pos (by simp [hb]), hb, sumBy_cons]
        ring
      · rw [if_neg (by simp [hb])]
        rcases List.mem_cons.mp ha with hba | ha'
        · exact absurd hba.symm hb
        · rw [sumBy_cons, sumBy_cons, ih ha']
          ring

theorem heldTotal_erase_inactive (holds : List Hold) (now : Int) (pid : Nat)
    (T : Int) (h : Hold) (hmem : h ∈ holds) (hinact : h.isActiveAt now = false) :
    heldTotal (holds.erase h) now pid T = heldTotal holds now pid T := by
  rw [heldTotal, heldTotal, sumBy_filter, sumBy_filter, sumBy_erase _ h _ hmem]
  simp [hinact]

/-- Trace state for C3: `receive(10, P, position 1)` then
`hold(4, P, date 0, expires_at = -1)` — the Hold binds to the Quant but is
already expired relative to `now = 0`, and no sweeper has run. -/
def exC3s2 : State := okState (hold exC1s1 exP 4 0 (some (-1)))

/-- C3: a PENDING/CONFIRMED Hold whose `expires_at` is set and strictly in the
past is not counted by the availability engine: `available` and `committed`
equal what they would be if the Hold did not exist, with no dependence on the
sweeper having run. -/
theorem C3_realtime_expiry (s : State) (p : Product) (T : Int) (h : Hold)
    (hmem : h ∈ s.holds)
    (_hstat : h.status = HoldStatus.pending ∨ h.status = HoldStatus.confirmed)
    (e : Int) (hexp : h.expiresAt = some e) (hpast : e < s.now) :
    available s p T = available (removeHold s h) p T ∧
      committed s p T = committed (removeHold s h) p T := by
  have hinact : h.isActiveAt s.now = false := by
    rw [Hold.isActiveAt, hexp]
    have hne : ¬ (s.now ≤ e) := by omega
    simp [hne]
  have hheld : heldTotal ((removeHold s h).holds) s.now p.id T
      = heldTotal s.holds s.now p.id T := by
    show heldTotal (s.holds.erase h) s.now p.id T = _
    exact heldTotal_erase_inactive s.holds s.now p.id T h hmem hinact
  constructor
  · rw [available, available, show (removeHold s h).quants = s.quants from rfl,
      show (removeHold s h).now = s.now from rfl, hheld]
  · rw [committed, committed, show (removeHold s h).now = s.now from rfl, hheld]

/-- Witness for C3: the expired-but-still-PENDING Hold of `exC3s2` leaves
`available`/`committed` exactly as if it did not exist. -/
theorem C3_realtime_expiry_witness :
    (⟨1, 1, some 1, 4, 0, HoldStatus.pending, some (-1), none⟩ : Hold) ∈ exC3s2.holds ∧
      available exC3s2 exP 0 =
        available (removeHold exC3s2
          ⟨1, 1, some 1, 4, 0, HoldStatus.pending, some (-1), none⟩) exP 0 ∧
      committed exC3s2 exP 0 =
        committed (removeHold exC3s2
          ⟨1, 1, some 1, 4, 0, HoldStatus.pending, some (-1), none⟩) exP 0 := by
  refine ⟨by decide, ?_⟩
  exact C3_realtime_expiry exC3s2 exP 0
    ⟨1, 1, some 1, 4, 0, HoldStatus.pending, some (-1), none⟩
    (by decide) (Or.inl rfl) (-1) rfl (by decide)

end Stockman

namespace Stockman

/-- C4: a hold request with `q <= 0` fails `INVALID_QUANTITY`; when no single
eligible Quant's individual live availability covers `q`, a `demand_ok` product
gets a PENDING Hold with no linked Quant, and any other policy fails
`INSUFFICIENT_AVAILABLE` carrying the computed availability and the request;
and concretely `append(5)`, `hold(3)`, then `hold(5)` fails with
`available = 2, requested = 5`. -/
theorem C4_hold_branches (s : State) (p : Product) (qty T : Int) (e : Option Int)
    (hqty : 0 < qty)
    (hnone : ∀ qu ∈ s.quants, qu.productId = p.id →
      eligibleForDate qu p.shelflife T = true →
      quantAvailable s.holds s.now qu < qty) :
    ((p.policy = Policy.demandOk →
        hold s p qty T e = .ok (s.nextHoldId,
          { s with
            holds := s.holds ++ [(⟨s.nextHoldId, p.id, none, qty, T, .pending, e, none⟩ : Hold)],
            nextHoldId := s.nextHoldId + 1 })) ∧
      (p.policy ≠ Policy.demandOk →
        hold s p qty T e = .error (.insufficientAvailable (available s p T) qty))) ∧
    (∀ q0 : Int, q0 ≤ 0 → hold s p q0 T e = .error (.invalidQuantity q0)) ∧
    hold exC4s2 exP 5 0 none = .error (.insufficientAvailable 2 5) := by
  have hfind : findQuantForHold s p T qty = none := by
    rw [findQuantForHold]
    apply List.find?_eq_none.mpr
    intro x hx
    obtain ⟨hxmem, hxpred⟩ := List.mem_filter.mp hx
    rcases Bool.and_eq_true_iff.mp hxpred with ⟨h1, h2⟩
    have hlt := hnone x hxmem (by simpa using h1) h2
    simp only [decide_eq_true_eq]
    omega
  have halloc : lockedAlloc s p qty T = none := by
    by_cases hav : available s p T ≥ qty
    · simp [lockedAlloc, if_pos hav, hfind]
    · simp [lockedAlloc, if_neg hav]
  refine ⟨⟨?_, ?_⟩, ?_, rfl⟩
  · intro hpol
    rw [hold, if_neg (by omega)]
    simp only [halloc]
    rw [if_pos (by simp [hpol])]
  · intro hpol
    rw [hold, if_neg (by omega)]
    simp only [halloc]
    rw [if_neg (by simp [hpol])]
  · intro q0 hq0
    rw [hold, if_pos hq0]

/-- Witness for C4 on the concrete scenario state: `hold(5)` after `append(5)`
and a successful `hold(3)` falls into the non-demand failure branch with the
computed availability. -/
theorem C4_hold_branches_witness :
    hold exC4s2 exP 5 0 none
      = .error (.insufficientAvailable (available exC4s2 exP 0) 5) := by
  have h := C4_hold_branches exC4s2 exP 5 0 none (by omega) (by decide)
  exact h.1.2 (by decide)

end Stockman

namespace Stockman

/-- C5: `fulfill` requires CONFIRMED (else `INVALID_STATUS`) and a linked Quant
(else `HOLD_IS_DEMAND`); on success it appends exactly one Move with
`delta = -quantity` on that Quant, marks the Hold FULFILLED and stamps the
resolution time; no other hold-lifecycle operation (create, confirm, release,
release_expired) changes any Quant row; and concretely
`append(100); hold(10); confirm; fulfill` leaves the Quant balance at 90. -/
theorem C5_fulfill_postcondition (s : State) (hid : Nat) (h0 : Hold)
    (hfind : s.holds.find? (fun x => x.id == hid) = some h0) :
    (h0.status ≠ HoldStatus.confirmed →
      fulfill s hid = .error (.invalidStatus h0.status)) ∧
    (h0.status = HoldStatus.confirmed → h0.quantId = none →
      fulfill s hid = .error .holdIsDemand) ∧
    (∀ qid : Nat, h0.status = HoldStatus.confirmed → h0.quantId = some qid →
      fulfill s hid = .ok (⟨s.nextMoveId, qid, -h0.quantity, "Entrega hold"⟩,
        { s.applyMove qid (-h0.quantity) "Entrega hold" with
          holds := s.holds.map (fun x => if x.id == hid then
            { h0 with status := HoldStatus.fulfilled, resolvedAt := some s.now }
          else x) }) ∧
      (s.applyMove qid (-h0.quantity) "Entrega hold").moves
        = s.moves ++ [(⟨s.nextMoveId, qid, -h0.quantity, "Entrega hold"⟩ : Move)]) ∧
    (∀ (p : Product) (qty T : Int) (e : Option Int) (hid' : Nat) (s' : State),
      hold s p qty T e = .ok (hid', s') → s'.quants = s.quants) ∧
    (∀ (hid' : Nat) (h' : Hold) (s' : State),
      confirm s hid' = .ok (h', s') → s'.quants = s.quants) ∧
    (∀ (hid' : Nat) (h' : Hold) (s' : State),
      release s hid' = .ok (h', s') → s'.quants = s.quants) ∧
    ((releaseExpired s).2.quants = s.quants) ∧
    (exC5s4.quants.map Quant.quantity = [90] ∧
      exC5s4.holds.map (fun h => (h.status, h.resolvedAt))
        = [(HoldStatus.fulfilled, some 0)]) := by
  refine ⟨?_, ?_, ?_, ?_, ?_, ?_, rfl, by decide⟩
  · intro hstat
    simp only [fulfill, hfind]
    rw [if_pos hstat]
  · intro hstat hq
    simp only [fulfill, hfind]
    rw [if_neg (fun hne => hne hstat)]
    simp only [hq]
  · intro qid hstat hq
    refine ⟨?_, rfl⟩
    simp only [fulfill, hfind]
    rw [if_neg (fun hne => hne hstat)]
    simp only [hq]
    rfl
  · intro p qty T e hid' s' heq
    obtain ⟨-, -, hcase⟩ := hold_ok heq
    rcases hcase with ⟨-, -, rfl⟩ | ⟨qid, -, rfl⟩ <;> rfl
  · intro hid' h' s' heq
    obtain ⟨-, -, -, -, -, rfl⟩ := confirm_ok heq
    rfl
  · intro hid' h' s' heq
    obtain ⟨-, -, -, -, -, rfl⟩ := release_ok heq
    rfl

/-- Witness for C5 at the concrete scenario: fulfilling the confirmed Hold of
`exC5s3` produces the `-10` Move (balance 100 → 90). -/
theorem C5_fulfill_postcondition_witness :
    fulfill exC5s3 1 = .ok (⟨2, 1, -10, "Entrega hold"⟩,
      { exC5s3.applyMove 1 (-(10 : Int)) "Entrega hold" with
        holds := exC5s3.holds.map (fun x => if x.id == 1 then
          { (⟨1, 1, some 1, 10, 0, HoldStatus.confirmed, none, none⟩ : Hold) with
            status := HoldStatus.fulfilled, resolvedAt := some exC5s3.now }
        else x) }) := by
  have h := C5_fulfill_postcondition exC5s3 1
    ⟨1, 1, some 1, 10, 0, HoldStatus.confirmed, none, none⟩ rfl
  exact (h.2.2.1 1 rfl rfl).1

end Stockman

namespace Stockman

/-- C6: for shelf life `k`, a Quant passes the availability/allocation window
for target date `T` iff it is physical (`target_date` none) with creation date
`>= T - k`, or planned with `T - k <= target_date <= T`; concretely a
shelf-life-0 product planned for day 5 is available on day 5 and not on days 4
or 6. -/
theorem C6_shelf_life_window (q : Quant) (k : Nat) (T : Int) :
    (eligibleForDate q (some k) T = true ↔
      ((q.targetDate = none ∧ q.createdDate ≥ T - (k : Int)) ∨
        (∃ d : Int, q.targetDate = some d ∧ T - (k : Int) ≤ d ∧ d ≤ T))) ∧
    (available exC6s1 exPk0 5 = 7 ∧ available exC6s1 exPk0 4 = 0 ∧
      available exC6s1 exPk0 6 = 0) := by
  refine ⟨?_, by decide, by decide, by decide⟩
  rw [eligibleForDate]
  cases hd : q.targetDate with
  | none => simp
  | some d =>
      simp only [Bool.and_eq_true, decide_eq_true_eq]
      constructor
      · rintro ⟨h1, h2⟩
        exact Or.inr ⟨d, rfl, h1, h2⟩
      · rintro (⟨hn, -⟩ | ⟨d', hd', h1, h2⟩)
        · simp at hn
        · obtain rfl := Option.some.inj hd'
          exact ⟨h1, h2⟩

end Stockman

namespace Stockman

theorem find?_map_update_by_id (l : List Hold) (hid : Nat) (h0 h' : Hold)
    (hfind : l.find? (fun x => x.id == hid) = some h0) (hid' : h'.id = h0.id) :
    (l.map (fun x => if x.id == hid then h' else x)).find? (fun x => x.id == hid)
      = some h' := by
  induction l with
  | nil => simp at hfind
  | cons a t ih =>
      rw [List.map_cons]
      rw [List.find?_cons_eq_some] at hfind
      by_cases hb : (a.id == hid) = true
      · rcases hfind with ⟨-, rfl⟩ | ⟨hnp, -⟩
        · rw [if_pos hb]
          refine List.find?_cons_eq_some.mpr (Or.inl ⟨?_, rfl⟩)
          rw [hid']
          exact hb
        · rw [hb] at hnp
          simp at hnp
      · rcases hfind with ⟨hp, -⟩ | ⟨-, hfind'⟩
        · exact absurd hp hb
        · rw [if_neg hb]
          refine List.find?_cons_eq_some.mpr (Or.inr ⟨?_, ih hfind'⟩)
          simp only [Bool.not_eq_true']
          exact Bool.not_eq_true _ ▸ (by simpa using hb)

/-- C7: `release` succeeds iff the Hold is PENDING or CONFIRMED and `confirm`
succeeds iff it is PENDING; a second `release` of the same Hold fails
`INVALID_STATUS` (release is not idempotent), a second `confirm` fails
`INVALID_STATUS`; in the failure cases the operation raises instead of
returning a new state, so nothing is written. -/
theorem C7_strict_lifecycle (s : State) (hid : Nat) (h0 : Hold)
    (hfind : s.holds.find? (fun x => x.id == hid) = some h0) :
    ((∃ r : Hold × State, release s hid = .ok r) ↔
      (h0.status = HoldStatus.pending ∨ h0.status = HoldStatus.confirmed)) ∧
    ((∃ r : Hold × State, confirm s hid = .ok r) ↔
      h0.status = HoldStatus.pending) ∧
    (∀ (h' : Hold) (s' : State), release s hid = .ok (h', s') →
      release s' hid = .error (.invalidStatus HoldStatus.released)) ∧
    (∀ (h' : Hold) (s' : State), confirm s hid = .ok (h', s') →
      confirm s' hid = .error (.invalidStatus HoldStatus.confirmed)) ∧
    (¬(h0.status = HoldStatus.pending ∨ h0.status = HoldStatus.confirmed) →
      release s hid = .error (.invalidStatus h0.status)) ∧
    (h0.status ≠ HoldStatus.pending →
      confirm s hid = .error (.invalidStatus h0.status)) := by
  refine ⟨⟨?_, ?_⟩, ⟨?_, ?_⟩, ?_, ?_, ?_, ?_⟩
  · rintro ⟨⟨h', s'⟩, heq⟩
    obtain ⟨hh, -, hfind', hstat, -, -⟩ := release_ok heq
    rw [hfind] at hfind'
    obtain rfl := Option.some.inj hfind'
    exact hstat
  · intro hstat
    simp only [release, hfind]
    rw [if_pos (by rcases hstat with hs | hs <;> simp [hs])]
    exact ⟨_, rfl⟩
  · rintro ⟨⟨h', s'⟩, heq⟩
    obtain ⟨hh, -, hfind', hstat, -, -⟩ := confirm_ok heq
    rw [hfind] at hfind'
    obtain rfl := Option.some.inj hfind'
    exact hstat
  · intro hstat
    simp only [confirm, hfind]
    rw [if_neg (fun hne => hne hstat)]
    exact ⟨_, rfl⟩
  · intro h' s' heq
    obtain ⟨hh, -, hfind', -, hh', rfl⟩ := release_ok heq
    rw [hfind] at hfind'
    obtain rfl := Option.some.inj hfind'
    have hf2 := find?_map_update_by_id s.holds hid h0
      { h0 with status := HoldStatus.released, resolvedAt := some s.now }
      hfind rfl
    simp only [release, hf2]
    rw [if_neg (by simp)]
  · intro h' s' heq
    obtain ⟨hh, -, hfind', -, hh', rfl⟩ := confirm_ok heq
    rw [hfind] at hfind'
    obtain rfl := Option.some.inj hfind'
    have hf2 := find?_map_update_by_id s.holds hid h0
      { h0 with status := HoldStatus.confirmed } hfind rfl
    simp only [confirm, hf2]
    rw [if_pos (by simp)]
  · intro hstat
    simp only [release, hfind]
    rw [if_neg (by
      intro hc
      rcases Bool.or_eq_true_iff.mp hc with hs | hs
      · exact hstat (Or.inl (by simpa using hs))
      · exact hstat (Or.inr (by simpa using hs)))]
  · intro hstat
    simp only [confirm, hfind]
    rw [if_pos hstat]

/-- Witness for C7: confirming the PENDING Hold of `exC5s2` succeeds. -/
theorem C7_strict_lifecycle_witness :
    ∃ r : Hold × State, confirm exC5s2 1 = .ok r :=
  (C7_strict_lifecycle exC5s2 1
    ⟨1, 1, some 1, 10, 0, HoldStatus.pending, none, none⟩ rfl).2.1.mpr rfl

end Stockman

namespace Stockman

/-- C9 (claim as stated is refuted): mutating or deleting a persisted Move is
indeed refused with the Move and balance untouched, but the failure is a plain
`ValueError` — an ambient/generic exception — not a structured domain error,
and no `ImmutableRecordError` exists anywhere in the code (the repository's own
tests assert `pytest.raises(ValueError)`). -/
theorem C9_counterexample :
    moveSave State.init (some 1) 1 5 "r"
        = .error (.valueError "Movimentos sao imutaveis.") ∧
      (EngineErr.valueError "Movimentos sao imutaveis.").isStructured = false ∧
      moveDelete State.init 1 = .error (.valueError "Movimentos sao imutaveis.") :=
  ⟨rfl, rfl, rfl⟩

/-- C9 (amended): every attempt to save an already-persisted Move and every
attempt to delete a Move fails with an ambient `ValueError` (not a structured
domain error), producing no successor state — the Move and its Quant's balance
are unchanged. -/
theorem C9_move_immutable (s : State) (k qid : Nat) (δ : Int) (r : String)
    (pk : Nat) :
    moveSave s (some k) qid δ r = .error (.valueError "Movimentos sao imutaveis.") ∧
      moveDelete s pk = .error (.valueError "Movimentos sao imutaveis.") ∧
      ∀ msg : String, (EngineErr.valueError msg).isStructured = false :=
  ⟨rfl, rfl, fun _ => rfl⟩

/-- C10: lifecycle transitions ignore expiry — an expired PENDING Hold can
still be confirmed, an expired CONFIRMED Hold with a linked Quant can still be
fulfilled (decrementing the balance by its quantity), and an expired
PENDING/CONFIRMED Hold can still be released; `expires_at` never blocks a
transition. -/
theorem C10_lifecycle_ignores_expiry (s : State) (hid : Nat) (h0 : Hold)
    (e : Int) (hfind : s.holds.find? (fun x => x.id == hid) = some h0)
    (_hexp : h0.expiresAt = some e) (_hpast : e < s.now) :
    (h0.status = HoldStatus.pending →
      confirm s hid = .ok ({ h0 with status := HoldStatus.confirmed },
        { s with holds := s.holds.map (fun x => if x.id == hid then
            { h0 with status := HoldStatus.confirmed } else x) })) ∧
    (∀ qid : Nat, h0.status = HoldStatus.confirmed → h0.quantId = some qid →
      fulfill s hid = .ok (⟨s.nextMoveId, qid, -h0.quantity, "Entrega hold"⟩,
        { s.applyMove qid (-h0.quantity) "Entrega hold" with
          holds := s.holds.map (fun x => if x.id == hid then
            { h0 with status := HoldStatus.fulfilled, resolvedAt := some s.now }
          else x) }) ∧
      (s.applyMove qid (-h0.quantity) "Entrega hold").quants
        = s.quants.map (fun q => if q.id == qid then
            { q with quantity := q.quantity + -h0.quantity } else q)) ∧
    (h0.status = HoldStatus.pending ∨ h0.status = HoldStatus.confirmed →
      ∃ r : Hold × State, release s hid = .ok r) := by
  refine ⟨?_, ?_, ?_⟩
  · intro hstat
    simp only [confirm, hfind]
    rw [if_neg (fun hne => hne hstat)]
  · intro qid hstat hq
    refine ⟨?_, rfl⟩
    simp only [fulfill, hfind]
    rw [if_neg (fun hne => hne hstat)]
    simp only [hq]
    rfl
  · intro hstat
    simp only [release, hfind]
    rw [if_pos (by rcases hstat with hs | hs <;> simp [hs])]
    exact ⟨_, rfl⟩

/-- Witness for C10: the Hold of `exC3s2` is PENDING with `expires_at = -1`
already past (`now = 0`), yet `confirm` succeeds and `release` would too. -/
theorem C10_lifecycle_ignores_expiry_witness :
    confirm exC3s2 1 = .ok (
      { (⟨1, 1, some 1, 4, 0, HoldStatus.pending, some (-1), none⟩ : Hold) with
          status := HoldStatus.confirmed },
      { exC3s2 with holds := exC3s2.holds.map (fun x => if x.id == 1 then
          { (⟨1, 1, some 1, 4, 0, HoldStatus.pending, some (-1), none⟩ : Hold) with
              status := HoldStatus.confirmed } else x) }) ∧
    (∃ r : Hold × State, release exC3s2 1 = .ok r) := by
  have h := C10_lifecycle_ignores_expiry exC3s2 1
    ⟨1, 1, some 1, 4, 0, HoldStatus.pending, some (-1), none⟩ (-1) rfl rfl (by decide)
  exact ⟨h.1 rfl, h.2.2 (Or.inl rfl)⟩

end Stockman

namespace Stockman

theorem applyMove_mem_shape (s : State) (qid : Nat) (δ : Int) (r : String)
    (i : Nat) (pos : Option Nat) (td : Option Int)
    (hq : ∃ q ∈ s.quants, q.id = i ∧ q.position = pos ∧ q.targetDate = td) :
    ∃ q ∈ (s.applyMove qid δ r).quants,
      q.id = i ∧ q.position = pos ∧ q.targetDate = td := by
  obtain ⟨q, hq, h1, h2, h3⟩ := hq
  simp only [State.applyMove]
  by_cases h : q.id == qid
  · exact ⟨{ q with quantity := q.quantity + δ },
      List.mem_map.mpr ⟨q, hq, by simp [h]⟩, h1, h2, h3⟩
  · exact ⟨q, List.mem_map.mpr ⟨q, hq, by simp [h]⟩, h1, h2, h3⟩

theorem realize_shape_helper (t : State) (qid1 : Nat) (r1 : String) (a : Int)
    (pq : Nat) (r2 : String) (pos : Option Nat)
    (hq : ∃ x ∈ t.quants, x.id = pq ∧ x.position = pos ∧ x.targetDate = none) :
    ∃ x ∈ ((t.applyMove qid1 (-a) r1).applyMove pq a r2).quants,
      x.id = pq ∧ x.position = pos ∧ x.targetDate = none :=
  applyMove_mem_shape _ pq a r2 pq pos none
    (applyMove_mem_shape t qid1 (-a) r1 pq pos none hq)

/-- C8: `realize(product, D, actual, to_position)` fails `QUANT_NOT_FOUND`
when no planned Quant exists; otherwise it appends a reconciling Move of
`actual - planned` on the planned Quant exactly when the actual quantity
differs, then the `-actual`/`+actual` transfer pair (planned Quant, then the
get-or-created physical Quant at `to_position` with no target date), and
re-points every PENDING/CONFIRMED Hold of the planned Quant to the physical
Quant; concretely `plan(50); hold(8); realize(actual=45, vitrine)` yields
Moves `+50, -5, -45, +45`, a physical balance of 45, and the Hold re-pointed
and still PENDING. -/
theorem C8_realize_postcondition (s : State) (p : Product) (D actual : Int)
    (toPos : Nat) (r : String) :
    (getQuant s p none (some D) "" = none →
      realize s p D actual toPos r = .error .quantNotFound) ∧
    (∀ q : Quant, getQuant s p none (some D) "" = some q →
      ∃ (pqid : Nat) (s' : State),
        realize s p D actual toPos r = .ok (pqid, s') ∧
        s'.moves.map (fun m => (m.quantId, m.delta))
          = s.moves.map (fun m => (m.quantId, m.delta)) ++
            (if actual = q.quantity then [] else [(q.id, actual - q.quantity)]) ++
            [(q.id, -actual), (pqid, actual)] ∧
        (∃ qp ∈ s'.quants, qp.id = pqid ∧ qp.position = some toPos ∧
          qp.targetDate = none) ∧
        s'.holds = s.holds.map (fun h =>
          if h.quantId == some q.id &&
              (h.status == HoldStatus.pending || h.status == HoldStatus.confirmed) then
            { h with quantId := some pqid }
          else h)) ∧
    (exC8s3.moves.map (fun m => (m.quantId, m.delta))
        = [(1, 50), (1, -5), (1, -45), (2, 45)] ∧
      exC8s3.quants.map (fun q => (q.id, q.position, q.targetDate, q.quantity))
        = [(1, none, some 3, 0), (2, some 1, none, 45)] ∧
      exC8s3.holds.map (fun h => (h.quantId, h.status))
        = [(some 2, HoldStatus.pending)]) := by
  refine ⟨?_, ?_, by decide, by decide, by decide⟩
  · intro hget
    simp only [realize, hget]
  · intro q hget
    simp only [realize, hget]
    by_cases hne : q.quantity ≠ actual
    · rw [if_pos hne]
      cases hfind : (s.applyMove q.id (actual - q.quantity)
          ("Ajuste producao: " ++ r)).quants.find? (fun x =>
            x.productId == p.id && x.position == some toPos &&
              x.targetDate == none && x.batch == "") with
      | some x =>
          simp only [hfind]
          refine ⟨x.id, _, rfl, ?_, ?_, rfl⟩
          · rw [if_neg (fun hc => hne hc.symm)]
            simp [State.applyMove]
          · have hxmem := List.mem_of_find?_eq_some hfind
            have hpred := List.find?_some hfind
            simp only [Bool.and_eq_true, beq_iff_eq] at hpred
            obtain ⟨⟨⟨-, hpos⟩, htd⟩, -⟩ := hpred
            exact realize_shape_helper _ q.id ("Transferencia: " ++ r) actual
              x.id ("Recebido de producao: " ++ r) (some toPos)
              ⟨x, hxmem, rfl, hpos, htd⟩
      | none =>
          simp only [hfind]
          refine ⟨_, _, rfl, ?_, ?_, rfl⟩
          · rw [if_neg (fun hc => hne hc.symm)]
            simp [State.applyMove]
          · refine realize_shape_helper _ q.id ("Transferencia: " ++ r) actual
              _ ("Recebido de producao: " ++ r) (some toPos) ?_
            exact ⟨_, List.mem_append.mpr (Or.inr (List.mem_singleton.mpr rfl)),
              rfl, rfl, rfl⟩
    · rw [if_neg hne]
      cases hfind : s.quants.find? (fun x =>
          x.productId == p.id && x.position == some toPos &&
            x.targetDate == none && x.batch == "") with
      | some x =>
          simp only [hfind]
          refine ⟨x.id, _, rfl, ?_, ?_, rfl⟩
          · rw [if_pos (by omega : actual = q.quantity)]
            simp [State.applyMove]
          · have hxmem := List.mem_of_find?_eq_some hfind
            have hpred := List.find?_some hfind
            simp only [Bool.and_eq_true, beq_iff_eq] at hpred
            obtain ⟨⟨⟨-, hpos⟩, htd⟩, -⟩ := hpred
            exact realize_shape_helper _ q.id ("Transferencia: " ++ r) actual
              x.id ("Recebido de producao: " ++ r) (some toPos)
              ⟨x, hxmem, rfl, hpos, htd⟩
      | none =>
          simp only [hfind]
          refine ⟨_, _, rfl, ?_, ?_, rfl⟩
          · rw [if_pos (by omega : actual = q.quantity)]
            simp [State.applyMove]
          · refine realize_shape_helper _ q.id ("Transferencia: " ++ r) actual
              _ ("Recebido de producao: " ++ r) (some toPos) ?_
            exact ⟨_, List.mem_append.mpr (Or.inr (List.mem_singleton.mpr rfl)),
              rfl, rfl, rfl⟩

end Stockman

namespace Stockman

/-- Witness for C8 at the concrete scenario state: realizing the planned Quant
of `exC8s2` (planned 50, actual 45) appends the `-5` reconcile and the
`-45`/`+45` pair and re-points the Hold. -/
theorem C8_realize_postcondition_witness :
    ∃ (pqid : Nat) (s' : State),
      realize exC8s2 exP 3 45 1 "ok" = .ok (pqid, s') ∧
      s'.moves.map (fun m => (m.quantId, m.delta))
        = exC8s2.moves.map (fun m => (m.quantId, m.delta)) ++
          [((1 : Nat), (-5 : Int))] ++ [(1, -45), (pqid, 45)] ∧
      (∃ qp ∈ s'.quants, qp.id = pqid ∧ qp.position = some 1 ∧
        qp.targetDate = none) ∧
      s'.holds = exC8s2.holds.map (fun h =>
        if h.quantId == some 1 &&
            (h.status == HoldStatus.pending || h.status == HoldStatus.confirmed) then
          { h with quantId := some pqid }
        else h) :=
  (C8_realize_postcondition exC8s2 exP 3 45 1 "ok").2.1
    ⟨1, 1, none, some 3, "", 50, 0, 0⟩ rfl

end Stockman
